import Mathlib

/-!
Verification of the MCP-Frogs job orchestration engine and pipeline dataflow
resolver, as a shallow embedding of `src/mcp_server/` in Lean 4.

Embedded modules:
- `job_manager.py`: `build_command`, `submit_job`, `cancel_job`,
  `JobPoller._poll_loop`
- `database.py`: the SQLite tables and operations, modelled as a pure record
  `DB`
- `pipeline.py`: `FLOW_RULES`, `_get_completed_jobs_for_project`,
  `resolve_inputs_for_step`

Modelling conventions:
- Python values that flow through parameter maps are modelled by `Value`
  (`None`, `str`, `int`, `bool`, `list`); float-typed parameters are not
  exercised by any claim and are not modelled.
- Python dicts are modelled as association lists with dict semantics:
  `List.lookup` for `d[k]` / `k in d`, `dinsert` for `d[k] = v` (overwrite in
  place, append at the end when fresh), `pyDictEq` for `d1 == d2`
  (order-independent, pointwise).
- Python string comparison (used by `sorted(..., key=start_time)` and the SQL
  `ORDER BY created_at DESC`) is code-point lexicographic; `pyStrLt/pyStrLe`
  implement it directly on the character lists.
- The process world is external: a poll tick receives the map
  `job_id -> optional exit code` reported by each registered process handle,
  `os.path.isfile` is a parameter `String → Bool`, and the outcome of
  `os.kill` is an explicit `KillOutcome` input.
- The tool catalogue `TOOLS` (`tools_registry.py`) is declared out of scope by
  the design ("a static configuration table consumed by the core"); operations
  take the catalogue as an explicit association-list argument.
-/

-- ===========================================================================
-- Definitions
-- ===========================================================================

/-- A Python runtime value as it appears in parameter maps. -/
inductive Value where
  | vnone
  | str (s : String)
  | int (n : Int)
  | bool (b : Bool)
  | list (xs : List Value)

/-- Python truthiness (`if val:`) for the modelled value universe. -/
def Value.truthy : Value → Bool
  | .vnone => false
  | .str s => s ≠ ""
  | .int n => n ≠ 0
  | .bool b => b
  | .list [] => false
  | .list (_ :: _) => true

mutual

/-- Python `repr`, as far as the modelled values need it (string escaping is
not modelled; no claim exercises it). -/
def Value.pyRepr : Value → String
  | .vnone => "None"
  | .str s => "'" ++ s ++ "'"
  | .int n => toString n
  | .bool b => if b then "True" else "False"
  | .list xs => "[" ++ String.intercalate ", " (Value.pyReprList xs) ++ "]"

def Value.pyReprList : List Value → List String
  | [] => []
  | v :: vs => Value.pyRepr v :: Value.pyReprList vs

end

/-- Python `str(val)`. -/
def Value.pyStr : Value → String
  | .vnone => "None"
  | .str s => s
  | .int n => toString n
  | .bool b => if b then "True" else "False"
  | .list xs => "[" ++ String.intercalate ", " (Value.pyReprList xs) ++ "]"

/-- Python `str.split()` with no separator: split on whitespace runs,
dropping empty fields. -/
def pySplit (s : String) : List String :=
  ((s.data.foldr (fun c acc =>
      if c.isWhitespace then [] :: acc
      else (c :: acc.headD []) :: acc.tail) [[]]).map (fun l => String.mk l)).filter
    (fun x => x != "")

/-- Python code-point lexicographic `<` on character lists. -/
def pyStrLtL : List Char → List Char → Bool
  | [], [] => false
  | [], _ :: _ => true
  | _ :: _, [] => false
  | a :: as, b :: bs =>
    if a.toNat < b.toNat then true
    else if b.toNat < a.toNat then false
    else pyStrLtL as bs

/-- Python code-point lexicographic `<=` on character lists. -/
def pyStrLeL : List Char → List Char → Bool
  | [], _ => true
  | _ :: _, [] => false
  | a :: as, b :: bs =>
    if a.toNat < b.toNat then true
    else if b.toNat < a.toNat then false
    else pyStrLeL as bs

/-- Python string `<` (code-point lexicographic, as Python compares `str`). -/
def pyStrLt (a b : String) : Bool := pyStrLtL a.data b.data

/-- Python string `<=`. -/
def pyStrLe (a b : String) : Bool := pyStrLeL a.data b.data

/-- Stable insertion of one element into an already-sorted list: the new
element goes after every earlier element that compares `le` to it, so equal
keys keep their original relative order. -/
def stableInsert {α : Type} (le : α → α → Bool) (a : α) : List α → List α
  | [] => [a]
  | b :: t => if le b a then b :: stableInsert le a t else a :: b :: t

/-- Python `sorted(l, key=...)`: a stable sort by the boolean comparator
(insertion sort — any stable sort realizes CPython's Timsort's input/output
contract for a total preorder). -/
def pySorted {α : Type} (le : α → α → Bool) (l : List α) : List α :=
  l.foldl (fun acc a => stableInsert le a acc) []

/-- Python `d[k] = v`: overwrite in place if the key is present (keeping its
position), else append at the end — dict insertion-order semantics. -/
def dinsert {β : Type} : List (String × β) → String → β → List (String × β)
  | [], k, v => [(k, v)]
  | kv :: t, k, v => if kv.1 = k then (k, v) :: t else kv :: dinsert t k v

/-- Python `d.get(k)` for parameter maps: absent keys give `None`. -/
def pyGet (m : List (String × Value)) (k : String) : Value :=
  (m.lookup k).getD .vnone

/-- Python `d1 == d2` on string-valued dicts: pointwise, order-independent. -/
def pyDictEq (a b : List (String × String)) : Bool :=
  a.all (fun kv => b.lookup kv.1 == some kv.2) &&
  b.all (fun kv => a.lookup kv.1 == some kv.2)

-- ---------------------------------------------------------------------------
-- config.py
-- ---------------------------------------------------------------------------

/-- `config.FROGS_PYTHON` (environment override not modelled; the concrete
value is irrelevant to every claim). -/
def FROGS_PYTHON : String := "/usr/bin/python3"

/-- `config._BASE_DIR`, an absolute host path; its concrete value is
irrelevant to every claim. -/
def BASE_DIR : String := "/base"

/-- `config.FROGS_TOOLS_DIR`. -/
def FROGS_TOOLS_DIR : String := BASE_DIR ++ "/FROGS/tools"

/-- `config.WORKSPACE_ROOT`. -/
def WORKSPACE_ROOT : String := BASE_DIR ++ "/workspaces"

/-- `config.DEFAULT_NB_CPUS`. -/
def DEFAULT_NB_CPUS : Int := 4

-- ---------------------------------------------------------------------------
-- tools_registry.py: ParamSpec / ToolSpec
-- ---------------------------------------------------------------------------

/-- `tools_registry.ParamSpec`. `default = .vnone` models the Python
`default: Any = None`; `output_key : Option String` models `Optional[str]`. -/
structure ParamSpec where
  python_name : String
  cli_flag : String
  required : Bool := false
  type : String := "str"
  default : Value := .vnone
  is_input_file : Bool := false
  is_output_file : Bool := false
  output_key : Option String := none
  help_text : String := ""

/-- `tools_registry.ToolSpec` (the fields the core reads). -/
structure ToolSpec where
  name : String
  script_name : String
  params : List ParamSpec := []
  has_subparser : Bool := false
  subparser_param : String := ""

/-- `ToolSpec.script_path` (the `tool_dir` conditional in the source is the
identity: both branches are `self.name`). -/
def ToolSpec.script_path (t : ToolSpec) : String :=
  FROGS_TOOLS_DIR ++ "/" ++ t.name ++ "/" ++ t.script_name

-- ---------------------------------------------------------------------------
-- os.path helpers (POSIX semantics, as the server runs on POSIX paths)
-- ---------------------------------------------------------------------------

/-- `os.path.isabs` for POSIX paths: starts with a slash. -/
def osPathIsAbs (s : String) : Bool :=
  match s.data with
  | '/' :: _ => true
  | _ => false

/-- Whether a path string ends with a slash. -/
def strEndsWithSlash (s : String) : Bool :=
  match s.data.getLast? with
  | some '/' => true
  | _ => false

/-- `os.path.join` for two POSIX path components. -/
def osPathJoin (a b : String) : String :=
  if osPathIsAbs b then b
  else if a = "" then b
  else if strEndsWithSlash a then a ++ b
  else a ++ "/" ++ b

-- ---------------------------------------------------------------------------
-- job_manager.build_command
-- ---------------------------------------------------------------------------

/-- The error taxonomy of `submit_job`/`build_command` (in Python all are
`ValueError` with distinct messages, except `duplicateJobId` which surfaces
as a database integrity error and `typeErr` which models an uncaught
`TypeError` from `os.path` on a non-string value). -/
inductive SubmitErr where
  | unknownTool (name : String)
  | missingRequired (param : String)
  | missingPositional (param : String)
  | typeErr
  | duplicateJobId

/-- Result of `build_command`: the command list (a Python list, so entries are
values; `str(...)`-converted entries appear as `.str`) and
`resolved_outputs : output_key -> absolute path`. -/
structure BuildResult where
  cmd : List Value
  outputs : List (String × String)

/-- One iteration of the `merged` defaults loop of `build_command`: caller
value if present, else the declared default but only for output-file
parameters (`p.default is not None and p.is_output_file`). -/
def adStep (sub : String) (params : List (String × Value))
    (m : List (String × Value)) (p : ParamSpec) : List (String × Value) :=
  if p.python_name = sub then m
  else match params.lookup p.python_name with
    | some v => dinsert m p.python_name v
    | none =>
      match p.default, p.is_output_file with
      | .vnone, _ => m
      | d, true => dinsert m p.python_name d
      | _, false => m

/-- The `merged` defaults loop of `build_command`. -/
def applyDefaults (tool : ToolSpec) (params : List (String × Value)) :
    List (String × Value) :=
  tool.params.foldl (adStep tool.subparser_param params) []

/-- The output-file resolution loop of `build_command`: rewrite non-absolute
truthy values into `job_dir` and record truthy-keyed entries in
`resolved_outputs`. A truthy non-string value hits `os.path.isabs` and raises
`TypeError`. -/
def resolveOutputs (jobDir : String) :
    List ParamSpec → List (String × Value) → List (String × String) →
    Except SubmitErr (List (String × Value) × List (String × String))
  | [], m, outs => .ok (m, outs)
  | p :: rest, m, outs =>
    match p.is_output_file, m.lookup p.python_name with
    | true, some v =>
      if v.truthy then
        match v with
        | .str s =>
          let s2 := if osPathIsAbs s then s else osPathJoin jobDir s
          let m2 := if osPathIsAbs s then m else dinsert m p.python_name (.str s2)
          let outs2 := match p.output_key with
            | some k => if k = "" then outs else dinsert outs k s2
            | none => outs
          resolveOutputs jobDir rest m2 outs2
        | _ => .error .typeErr
      else resolveOutputs jobDir rest m outs
    | _, _ => resolveOutputs jobDir rest m outs

/-- The `nb_cpus` default step of `build_command`. -/
def applyNbCpus (tool : ToolSpec) (m : List (String × Value)) :
    List (String × Value) :=
  if (tool.params.any (fun p => p.python_name == "nb_cpus")) ∧
      (m.lookup "nb_cpus").isNone then
    dinsert m "nb_cpus" (.int DEFAULT_NB_CPUS)
  else m

/-- One parameter's contribution to the flag section of the command (the body
of the final loop of `build_command`). -/
def emitFlag (subparserParam : String) (merged : List (String × Value))
    (p : ParamSpec) : List Value :=
  if p.python_name = subparserParam then []
  else if p.cli_flag = "" then []
  else match merged.lookup p.python_name with
    | none => []
    | some v =>
      match v with
      | .vnone => []
      | _ =>
        if p.type = "bool" then
          if v.truthy then [.str p.cli_flag] else []
        else if p.type = "list" then
          let items : List String := match v with
            | .list xs => xs.map Value.pyStr
            | _ => pySplit v.pyStr
          if items ≠ [] then .str p.cli_flag :: items.map Value.str else []
        else [.str p.cli_flag, .str v.pyStr]

/-- `job_manager.build_command`. -/
def build_command (tool : ToolSpec) (params : List (String × Value))
    (jobDir : String) : Except SubmitErr BuildResult :=
  let base := [Value.str FROGS_PYTHON, Value.str tool.script_path]
  let withSub : Except SubmitErr (List Value) :=
    if tool.has_subparser then
      let v := pyGet params tool.subparser_param
      if v.truthy then .ok (base ++ [v])
      else .error (.missingPositional tool.subparser_param)
    else .ok base
  match withSub with
  | .error e => .error e
  | .ok cmd0 =>
    match resolveOutputs jobDir tool.params (applyDefaults tool params) [] with
    | .error e => .error e
    | .ok (m1, outs) =>
      let m2 := applyNbCpus tool m1
      .ok ⟨cmd0 ++ tool.params.flatMap (emitFlag tool.subparser_param m2), outs⟩

-- ---------------------------------------------------------------------------
-- database.py: tables as records
-- ---------------------------------------------------------------------------

/-- A row of the `jobs` table. `output_files = []` models both SQL `NULL` and
the empty JSON object (every reader only tests truthiness); values are
strings, as every writer stores string paths. -/
structure JobRec where
  job_id : String
  project_id : Option String
  tool_name : String
  step_name : Option String
  params : List (String × Value)
  command : List Value
  status : String
  pid : Option Int
  start_time : String
  end_time : Option String
  exit_code : Option Int
  stdout_file : String
  stderr_file : String
  log_file : String
  output_files : List (String × String)
  working_dir : String
  created_at : String

/-- A row of the `pipeline_steps` table. -/
structure StepRec where
  project_id : String
  step_name : String
  step_order : Int
  job_id : Option String
  status : String
  is_optional : Bool

/-- The persistent store. `jobs` is kept in insertion order (ascending
`created_at`, each insert stamping the current time). -/
structure DB where
  jobs : List JobRec
  steps : List StepRec

/-- `database.get_job`. -/
def get_job (db : DB) (jobId : String) : Option JobRec :=
  db.jobs.find? (fun j => j.job_id == jobId)

/-- The step row for a `(project, step)` pair (the row the `UNIQUE` constraint
makes unique). -/
def get_step (db : DB) (proj stp : String) : Option StepRec :=
  db.steps.find? (fun r => r.project_id == proj && r.step_name == stp)

/-- `database.insert_job` with an already-built row: fails on a duplicate
primary key (sqlite `IntegrityError`). The row's status is `running` and its
timestamps are stamped by the caller (`submit_job`). -/
def insert_job (db : DB) (j : JobRec) : Except SubmitErr DB :=
  if db.jobs.any (fun x => x.job_id == j.job_id) then .error .duplicateJobId
  else .ok { db with jobs := db.jobs ++ [j] }

/-- `database.update_job_status`: unconditionally sets status, exit code and
end time on the matching row. -/
def update_job_status (db : DB) (jobId st : String) (exitCode : Option Int)
    (now : String) : DB :=
  { db with jobs := db.jobs.map (fun j =>
      if j.job_id = jobId then
        { j with status := st, exit_code := exitCode, end_time := some now }
      else j) }

/-- `database.update_job_output_files`. -/
def update_job_output_files (db : DB) (jobId : String)
    (files : List (String × String)) : DB :=
  { db with jobs := db.jobs.map (fun j =>
      if j.job_id = jobId then { j with output_files := files } else j) }

/-- Python truthiness of an optional string (`if job_id:`). -/
def optStrTruthy : Option String → Bool
  | some j => j ≠ ""
  | none => false

/-- `database.update_pipeline_step`: `job_id` is written only when truthy. -/
def update_pipeline_step (db : DB) (proj stp st : String)
    (jobId : Option String) : DB :=
  { db with steps := db.steps.map (fun r =>
      if r.project_id = proj ∧ r.step_name = stp then
        if optStrTruthy jobId then { r with status := st, job_id := jobId }
        else { r with status := st }
      else r) }

/-- `database.list_jobs` filtered by project: `ORDER BY created_at DESC`
(stable on ties, matching sqlite's scan order for this schema). -/
def list_jobs (db : DB) (projectId : String) : List JobRec :=
  pySorted (fun a b => pyStrLe b.created_at a.created_at)
    (db.jobs.filter (fun j => j.project_id == some projectId))

-- ---------------------------------------------------------------------------
-- job_manager.py: poller registry and system state
-- ---------------------------------------------------------------------------

/-- The tuple `(proc, project_id, step_name)` registered with `JobPoller`
(the process handle is identified by its pid). -/
structure RegInfo where
  pid : Int
  project_id : Option String
  step_name : Option String

/-- The in-process system state: the store plus the poller's live registry
`_active : job_id -> (proc, project_id, step_name)` in dict order. -/
structure Sys where
  db : DB
  active : List (String × RegInfo)

/-- A store mutation performed by the poll loop (used to state which writes a
tick performs). -/
inductive StoreWrite where
  | wstatus (jobId st : String) (exitCode : Option Int)
  | woutputs (jobId : String) (files : List (String × String))
  | wstep (proj stp st : String) (jobId : Option String)

/-- Whether a write is an output-map write for the given job. -/
def StoreWrite.isOutputsFor (jobId : String) : StoreWrite → Bool
  | .woutputs j _ => j == jobId
  | _ => false

/-- The output-pruning part of the poll loop body
(`job = get_job(job_id); if job and job.get("output_files"): ...`): keep only
entries whose path exists, write back only when the dict differs. -/
def pruneOutputs (isfile : String → Bool) (jid : String)
    (dbw : DB × List StoreWrite) : DB × List StoreWrite :=
  match get_job dbw.1 jid with
  | some job =>
    if job.output_files ≠ [] then
      let existing := job.output_files.filter (fun kv => isfile kv.2)
      if pyDictEq existing job.output_files then dbw
      else (update_job_output_files dbw.1 jid existing,
            dbw.2 ++ [StoreWrite.woutputs jid existing])
    else dbw
  | none => dbw

/-- The pipeline-step part of the poll loop body
(`if project_id and step_name: update_pipeline_step(...)`). -/
def stepUpdate (st jid : String) (info : RegInfo)
    (dbw : DB × List StoreWrite) : DB × List StoreWrite :=
  match info.project_id, info.step_name with
  | some proj, some stp =>
    if proj ≠ "" ∧ stp ≠ "" then
      (update_pipeline_step dbw.1 proj stp st (some jid),
       dbw.2 ++ [StoreWrite.wstep proj stp st (some jid)])
    else dbw
  | _, _ => dbw

/-- Processing of one exited job inside `JobPoller._poll_loop`: persist
`completed`/`failed` with the exit code, prune the stored output map to paths
that exist (writing it back only when it differs as a dict), and update the
owning pipeline step when both project and step are truthy. -/
def processCompleted (isfile : String → Bool) (now : String)
    (acc : DB × List StoreWrite) (c : (String × RegInfo) × Int) :
    DB × List StoreWrite :=
  let jid := c.1.1
  let rc := c.2
  let st := if rc = 0 then "completed" else "failed"
  stepUpdate st jid c.1.2 (pruneOutputs isfile jid
    (update_job_status acc.1 jid st (some rc) now,
     acc.2 ++ [StoreWrite.wstatus jid st (some rc)]))

/-- One iteration of `JobPoller._poll_loop`: poll every registered handle,
drop the exited ones from the registry, then process each exited job in
registry order. `poll` is the per-handle `proc.poll()` result this tick. -/
def pollOnce (poll : String → Option Int) (isfile : String → Bool)
    (now : String) (s : Sys) : Sys × List StoreWrite :=
  let completed := s.active.filterMap (fun e => (poll e.1).map (fun rc => (e, rc)))
  let remaining := s.active.filter (fun e => (poll e.1).isNone)
  let fin := completed.foldl (processCompleted isfile now) (s.db, [])
  (⟨fin.1, remaining⟩, fin.2)

-- ---------------------------------------------------------------------------
-- job_manager.submit_job / cancel_job
-- ---------------------------------------------------------------------------

/-- Python `x or default` for an optional string. -/
def pyOrStr (o : Option String) (dflt : String) : String :=
  match o with
  | some s => if s = "" then dflt else s
  | none => dflt

/-- `job_manager.submit_job`. The fresh uuid, the spawned pid and the clock
are inputs; on any failure the state is returned unchanged (validation errors
are raised before any store write). -/
def submit_job (tools : List (String × ToolSpec)) (jobId : String) (pid : Int)
    (now : String) (s : Sys) (toolName : String) (params : List (String × Value))
    (projectId stepName : Option String) : Except SubmitErr String × Sys :=
  match tools.lookup toolName with
  | none => (.error (.unknownTool toolName), s)
  | some spec =>
    match spec.params.find? (fun p =>
        p.required && (params.lookup p.python_name).isNone &&
        p.python_name != spec.subparser_param) with
    | some p => (.error (.missingRequired p.python_name), s)
    | none =>
      if spec.has_subparser ∧ (params.lookup spec.subparser_param).isNone then
        (.error (.missingPositional spec.subparser_param), s)
      else
        let jobDir :=
          osPathJoin (osPathJoin WORKSPACE_ROOT (pyOrStr projectId "standalone")) jobId
        match build_command spec params jobDir with
        | .error e => (.error e, s)
        | .ok res =>
          let stdoutF := osPathJoin jobDir "stdout.txt"
          let stderrF := osPathJoin jobDir "stderr.txt"
          let logF := (res.outputs.lookup "log").getD (osPathJoin jobDir "frogs.log")
          let rec0 : JobRec := {
            job_id := jobId, project_id := projectId, tool_name := toolName,
            step_name := stepName, params := params, command := res.cmd,
            status := "running", pid := some pid, start_time := now,
            end_time := none, exit_code := none, stdout_file := stdoutF,
            stderr_file := stderrF, log_file := logF, output_files := [],
            working_dir := jobDir, created_at := now }
          match insert_job s.db rec0 with
          | .error e => (.error e, s)
          | .ok db1 =>
            let db2 := if res.outputs ≠ [] then update_job_output_files db1 jobId res.outputs
                       else db1
            (.ok jobId, ⟨db2, dinsert s.active jobId ⟨pid, projectId, stepName⟩⟩)

/-- The outcome of `os.kill(pid, SIGTERM)`, decided by the host OS. -/
inductive KillOutcome where
  | delivered
  | noSuchProcess
  | permissionDenied

/-- The error taxonomy of `cancel_job` (`ValueError` for a missing job,
re-raised `PermissionError` for an undeliverable signal). -/
inductive CancelErr where
  | jobNotFound (jobId : String)
  | signalPermissionDenied (pid : Int)

/-- `job_manager.cancel_job`. A falsy pid (NULL or 0) returns `False` without
touching anything; on successful delivery status `cancelled` with exit code
-15 is persisted immediately. The live registry is not touched. -/
def cancel_job (kill : KillOutcome) (now : String) (s : Sys) (jobId : String) :
    Except CancelErr (Bool × Sys) :=
  match get_job s.db jobId with
  | none => .error (.jobNotFound jobId)
  | some job =>
    match job.pid with
    | none => .ok (false, s)
    | some p =>
      if p = 0 then .ok (false, s)
      else
        match kill with
        | .delivered =>
          .ok (true,
            { s with db := update_job_status s.db jobId "cancelled" (some (-15)) now })
        | .noSuchProcess => .ok (false, s)
        | .permissionDenied => .error (.signalPermissionDenied p)

-- ---------------------------------------------------------------------------
-- pipeline.py: flow rules and input resolution
-- ---------------------------------------------------------------------------

/-- `pipeline.FLOW_RULES`: `(src_step, output_key, tgt_step, tgt_param)`. -/
def FLOW_RULES : List (String × String × String × String) := [
  ("reads_processing", "fasta", "remove_chimera", "input_fasta"),
  ("reads_processing", "biom",  "remove_chimera", "input_biom"),
  ("remove_chimera", "fasta", "cluster_filters", "input_fasta"),
  ("remove_chimera", "biom",  "cluster_filters", "input_biom"),
  ("cluster_filters", "fasta", "taxonomic_affiliation",   "input_fasta"),
  ("cluster_filters", "biom",  "taxonomic_affiliation",   "input_biom"),
  ("cluster_filters", "fasta", "affiliation_postprocess", "input_fasta"),
  ("cluster_filters", "biom",  "affiliation_postprocess", "input_biom"),
  ("taxonomic_affiliation", "biom", "affiliation_postprocess", "input_biom"),
  ("affiliation_postprocess", "fasta", "affiliation_filters", "input_fasta"),
  ("affiliation_postprocess", "biom",  "affiliation_filters", "input_biom"),
  ("affiliation_filters", "biom",  "affiliation_report", "input_biom"),
  ("affiliation_filters", "fasta", "tree",               "input_fasta"),
  ("affiliation_filters", "biom",  "tree",               "input_biom"),
  ("affiliation_filters", "fasta", "normalisation",      "input_fasta"),
  ("affiliation_filters", "biom",  "normalisation",      "input_biom"),
  ("tree", "tree", "phyloseq_import", "tree_nwk"),
  ("normalisation", "biom", "phyloseq_import", "input_biom"),
  ("phyloseq_import", "rdata", "phyloseq_composition",    "phyloseq_rdata"),
  ("phyloseq_import", "rdata", "phyloseq_alpha_diversity", "phyloseq_rdata"),
  ("phyloseq_import", "rdata", "phyloseq_beta_diversity",  "phyloseq_rdata"),
  ("phyloseq_import", "rdata", "phyloseq_clustering",      "phyloseq_rdata"),
  ("phyloseq_import", "rdata", "phyloseq_structure",       "phyloseq_rdata"),
  ("phyloseq_import", "rdata", "phyloseq_manova",          "phyloseq_rdata"),
  ("phyloseq_import", "rdata", "deseq2_preprocess",        "phyloseq_rdata"),
  ("phyloseq_beta_diversity", "beta_matrix_dir", "phyloseq_clustering", "beta_distance_matrix"),
  ("phyloseq_beta_diversity", "beta_matrix_dir", "phyloseq_structure",  "beta_distance_matrix"),
  ("phyloseq_beta_diversity", "beta_matrix_dir", "phyloseq_manova",     "beta_distance_matrix"),
  ("deseq2_preprocess", "deseq_rdata", "deseq2_visualisation", "deseq_rdata"),
  ("deseq2_preprocess", "rdata",       "deseq2_visualisation", "phyloseq_rdata"),
  ("frogsfunc_placeseqs", "fasta",           "frogsfunc_functions", "input_fasta"),
  ("frogsfunc_placeseqs", "biom",            "frogsfunc_functions", "input_biom"),
  ("frogsfunc_placeseqs", "tree",            "frogsfunc_functions", "input_tree"),
  ("frogsfunc_placeseqs", "marker_copy_tsv", "frogsfunc_functions", "input_marker_copy")]

/-- `pipeline._RULES_BY_TARGET[tgt]`: the `(src_step, out_key, tgt_param)`
triples of the rules targeting `tgt`, in `FLOW_RULES` order. -/
def rulesByTarget (tgt : String) : List (String × String × String) :=
  FLOW_RULES.filterMap (fun r =>
    if r.2.2.1 = tgt then some (r.1, r.2.1, r.2.2.2) else none)

/-- `pipeline._OUTPUT_KEY_TO_INPUT_PARAM` in dict order. -/
def OUTPUT_KEY_TO_INPUT_PARAM : List (String × String) := [
  ("fasta",   "input_fasta"),
  ("biom",    "input_biom"),
  ("rdata",   "phyloseq_rdata"),
  ("tree",    "tree_nwk"),
  ("tsv",     "input_tsv"),
  ("compo",   "input_compo")]

/-- `pipeline._get_completed_jobs_for_project`: completed jobs of the project
with a truthy output map, in `list_jobs` order. -/
def completedJobsForProject (db : DB) (projectId : String) : List JobRec :=
  (list_jobs db projectId).filter (fun j =>
    j.status == "completed" && j.output_files ≠ [])

/-- `job.get("step_name", "")` as used in the index keys: the row dict always
has the key, so a NULL value is Python `None` and formats as "None". -/
def jobSrcStep (j : JobRec) : String :=
  match j.step_name with
  | none => "None"
  | some s => s

/-- The job scan of `resolve_inputs_for_step`: sort by start time ascending
(Python's stable sort), then fold every truthy string entry into the
fully-qualified index `src_step.out_key -> path` and the loose index
`out_key -> path` — later writes overwrite earlier ones. -/
def buildIndexes (jobs : List JobRec) :
    List (String × String) × List (String × String) :=
  (pySorted (fun a b => pyStrLe a.start_time b.start_time) jobs).foldl
    (fun acc j =>
      j.output_files.foldl (fun acc2 kv =>
        if kv.2 ≠ "" then
          (dinsert acc2.1 (jobSrcStep j ++ "." ++ kv.1) kv.2,
           dinsert acc2.2 kv.1 kv.2)
        else acc2) acc)
    ([], [])

/-- The explicit-rule loop of `resolve_inputs_for_step`. -/
def applyRules (stepName : String) (inputParams : List String)
    (full loose : List (String × String)) : List (String × String) :=
  (rulesByTarget stepName).foldl (fun res r =>
    if r.2.2 ∈ inputParams then
      match full.lookup (r.1 ++ "." ++ r.2.1) with
      | some pth => dinsert res r.2.2 pth
      | none =>
        match loose.lookup r.2.1 with
        | some pth => dinsert res r.2.2 pth
        | none => res
    else res) []

/-- The shorthand-fallback loop of `resolve_inputs_for_step`. The source
iterates a Python set of parameter names; iteration order does not affect the
resulting dict contents (each pass writes only its own key), and the model
iterates the declaration order. -/
def applyShorthand (inputParams : List String) (loose : List (String × String))
    (res0 : List (String × String)) : List (String × String) :=
  inputParams.foldl (fun res pn =>
    if (res.lookup pn).isSome then res
    else match OUTPUT_KEY_TO_INPUT_PARAM.find? (fun kg =>
        kg.2 == pn && (loose.lookup kg.1).isSome) with
      | some kg => dinsert res pn ((loose.lookup kg.1).getD "")
      | none => res) res0

/-- The target step's declared input-file parameter names (the source builds a
set; the model keeps declaration order — only membership and per-name
iteration are used). -/
def inputFileParams (spec : ToolSpec) : List String :=
  spec.params.filterMap (fun p =>
    if p.is_input_file then some p.python_name else none)

/-- `pipeline.resolve_inputs_for_step`, with the catalogue passed
explicitly. -/
def resolve_inputs_for_step (tools : List (String × ToolSpec)) (db : DB)
    (projectId stepName : String) : List (String × String) :=
  match tools.lookup stepName with
  | none => []
  | some spec =>
    let completed := completedJobsForProject db projectId
    if completed.isEmpty then []
    else
      let idx := buildIndexes completed
      let inputParams := inputFileParams spec
      applyShorthand inputParams idx.2
        (applyRules stepName inputParams idx.1 idx.2)

-- ---------------------------------------------------------------------------
-- Proof-support definitions
-- ---------------------------------------------------------------------------

/-- The last truthy value written for key `k` by one job's output entries
(rightmost wins, mirroring the index fold). -/
def lastValT (k : String) : List (String × String) → Option String
  | [] => none
  | kv :: t =>
    match lastValT k t with
    | some v => some v
    | none => if kv.2 ≠ "" ∧ kv.1 = k then some kv.2 else none

/-- The last truthy value written for loose key `k` by a job list scanned in
order (later jobs win). -/
def lastValJ (k : String) : List JobRec → Option String
  | [] => none
  | j :: t =>
    match lastValJ k t with
    | some v => some v
    | none => lastValT k j.output_files

/-- The registry invariant: every live-registered job has a store record in
status `running` or `cancelled` (established at submission, preserved by
cancellation — which leaves the registry untouched — and by the poll loop,
which deregisters before writing a terminal status). -/
def RegInv (s : Sys) : Prop :=
  ∀ e ∈ s.active, ∃ j, get_job s.db e.1 = some j ∧
    (j.status = "running" ∨ j.status = "cancelled")

-- ===========================================================================
-- Theorems
-- ===========================================================================

-- ---------------------------------------------------------------------------
-- Helper lemmas: the Python string order
-- ---------------------------------------------------------------------------

theorem pyStrLeL_total : ∀ a b : List Char, pyStrLeL a b = true ∨ pyStrLeL b a = true
  | [], _ => Or.inl rfl
  | _ :: _, [] => Or.inr rfl
  | a :: as, b :: bs => by
    rcases Nat.lt_trichotomy a.toNat b.toNat with h | h | h
    · left; simp [pyStrLeL, h]
    · rcases pyStrLeL_total as bs with ih | ih
      · left; simp [pyStrLeL, h, ih, Nat.lt_irrefl]
      · right; simp [pyStrLeL, h.symm, ih, Nat.lt_irrefl]
    · right; simp [pyStrLeL, h]

theorem pyStrLeL_trans : ∀ a b c : List Char,
    pyStrLeL a b = true → pyStrLeL b c = true → pyStrLeL a c = true
  | [], _, _ => by intro _ _; rfl
  | _ :: _, [], _ => by intro h _; exact absurd h (by simp [pyStrLeL])
  | _ :: _, _ :: _, [] => by intro _ h; exact absurd h (by simp [pyStrLeL])
  | a :: as, b :: bs, c :: cs => by
    intro h1 h2
    simp only [pyStrLeL] at h1 h2 ⊢
    rcases Nat.lt_trichotomy a.toNat b.toNat with hab | hab | hab
    · rcases Nat.lt_trichotomy b.toNat c.toNat with hbc | hbc | hbc
      · simp [Nat.lt_trans hab hbc]
      · have hac : a.toNat < c.toNat := by omega
        simp [hac]
      · simp [Nat.lt_asymm hbc, hbc] at h2
    · rcases Nat.lt_trichotomy b.toNat c.toNat with hbc | hbc | hbc
      · have hac : a.toNat < c.toNat := by omega
        simp [hac]
      · have e1 : ¬ a.toNat < b.toNat := by omega
        have e2 : ¬ b.toNat < a.toNat := by omega
        have e3 : ¬ b.toNat < c.toNat := by omega
        have e4 : ¬ c.toNat < b.toNat := by omega
        have e5 : ¬ a.toNat < c.toNat := by omega
        have e6 : ¬ c.toNat < a.toNat := by omega
        simp only [if_neg e1, if_neg e2] at h1
        simp only [if_neg e3, if_neg e4] at h2
        simp only [if_neg e5, if_neg e6]
        exact pyStrLeL_trans as bs cs h1 h2
      · simp [Nat.lt_asymm hbc, hbc] at h2
    · simp [Nat.lt_asymm hab, hab] at h1

theorem pyStrLe_total (a b : String) : pyStrLe a b = true ∨ pyStrLe b a = true :=
  pyStrLeL_total a.data b.data

theorem pyStrLe_trans {a b c : String} (h1 : pyStrLe a b = true)
    (h2 : pyStrLe b c = true) : pyStrLe a c = true :=
  pyStrLeL_trans a.data b.data c.data h1 h2

theorem pyStrLtL_leL_false : ∀ a b : List Char,
    pyStrLtL a b = true → pyStrLeL b a = false
  | [], [] => by simp [pyStrLtL]
  | [], _ :: _ => by intro _; rfl
  | _ :: _, [] => by simp [pyStrLtL]
  | a :: as, b :: bs => by
    intro h
    simp only [pyStrLtL] at h
    simp only [pyStrLeL]
    rcases Nat.lt_trichotomy a.toNat b.toNat with hab | hab | hab
    · simp [Nat.lt_asymm hab, hab]
    · have e1 : ¬ a.toNat < b.toNat := by omega
      have e2 : ¬ b.toNat < a.toNat := by omega
      simp only [if_neg e1, if_neg e2] at h
      simp only [if_neg e2, if_neg e1]
      exact pyStrLtL_leL_false as bs h
    · simp [Nat.lt_asymm hab, hab] at h

/-- A strictly smaller string (Python `<`) is never `<=`-after a larger one. -/
theorem not_le_of_pyStrLt {a b : String} (h : pyStrLt a b = true) :
    pyStrLe b a = false :=
  pyStrLtL_leL_false a.data b.data h

-- ---------------------------------------------------------------------------
-- Helper lemmas: dict operations
-- ---------------------------------------------------------------------------

theorem lookup_dinsert {β : Type} : ∀ (m : List (String × β)) (k k' : String) (v : β),
    (dinsert m k v).lookup k' = if k' = k then some v else m.lookup k'
  | [], k, k', v => by
    by_cases h : k' = k
    · simp [dinsert, List.lookup, h]
    · have h1 : (k' == k) = false := by simp [h]
      simp [dinsert, List.lookup, h, h1]
  | kv :: t, k, k', v => by
    simp only [dinsert]
    by_cases hk : kv.1 = k
    · rw [if_pos hk]
      by_cases h : k' = k
      · simp [List.lookup, h]
      · have h2 : (k' == kv.1) = false := by simp [hk, h]
        have h1 : (k' == k) = false := by simp [h]
        simp [List.lookup, h1, h2, h]
    · rw [if_neg hk]
      by_cases hc : k' = kv.1
      · have hx : k' ≠ k := fun e => hk ((hc.symm.trans e) ▸ rfl)
        simp [List.lookup, hc, hx, hk]
      · have h2 : (k' == kv.1) = false := by simp [hc]
        simp only [List.lookup, h2]
        rw [lookup_dinsert t k k' v]

theorem lookup_dinsert_self {β : Type} (m : List (String × β)) (k : String) (v : β) :
    (dinsert m k v).lookup k = some v := by
  simp [lookup_dinsert]

theorem lookup_dinsert_ne {β : Type} (m : List (String × β)) (k k' : String) (v : β)
    (h : k' ≠ k) : (dinsert m k v).lookup k' = m.lookup k' := by
  simp [lookup_dinsert, h]

/-- A successful lookup names an actual entry of the list. -/
theorem lookup_eq_some_mem {β : Type} :
    ∀ {l : List (String × β)} {k : String} {v : β},
    l.lookup k = some v → (k, v) ∈ l := by
  intro l
  induction l with
  | nil => intro k v h; simp [List.lookup] at h
  | cons kv t ih =>
    intro k v h
    simp only [List.lookup] at h
    cases hc : (k == kv.1) with
    | true =>
      rw [hc] at h
      have hk : k = kv.1 := by simpa using hc
      have hv : v = kv.2 := by simpa using h.symm
      rw [hk, hv]
      exact List.mem_cons_self _ _
    | false =>
      rw [hc] at h
      exact List.mem_cons_of_mem _ (ih h)

/-- If the pruned map is dict-equal to the original, nothing was pruned. -/
theorem pyDictEq_filter_eq (p : String × String → Bool) :
    ∀ (l : List (String × String)), pyDictEq (l.filter p) l = true → l.filter p = l := by
  intro l h
  have h2 : ∀ kv ∈ l, (l.filter p).lookup kv.1 = some kv.2 := by
    intro kv hkv
    have := (Bool.and_eq_true _ _).mp h |>.2
    rw [List.all_eq_true] at this
    have := this kv hkv
    simpa using this
  rw [List.filter_eq_self]
  intro kv hkv
  have hl := h2 kv hkv
  have hmem : (kv.1, kv.2) ∈ l.filter p := lookup_eq_some_mem hl
  have : kv ∈ l.filter p := by
    rcases kv with ⟨a, b⟩
    exact hmem
  exact List.of_mem_filter this

-- ---------------------------------------------------------------------------
-- Helper lemmas: store operations
-- ---------------------------------------------------------------------------

theorem find?_map_of_pred {α : Type} (p : α → Bool) (f : α → α)
    (hf : ∀ a, p (f a) = p a) :
    ∀ l : List α, (l.map f).find? p = (l.find? p).map f := by
  intro l
  induction l with
  | nil => rfl
  | cons a t ih =>
    simp only [List.map_cons, List.find?]
    rw [hf a]
    cases hp : p a
    · simpa using ih
    · rfl

theorem get_job_some_id {db : DB} {q : String} {j : JobRec}
    (h : get_job db q = some j) : j.job_id = q := by
  have := List.find?_some h
  simpa using this

theorem get_job_update_status (db : DB) (jobId st : String) (ec : Option Int)
    (now q : String) :
    get_job (update_job_status db jobId st ec now) q =
      (get_job db q).map (fun j =>
        if j.job_id = jobId then
          { j with status := st, exit_code := ec, end_time := some now }
        else j) := by
  unfold get_job update_job_status
  exact find?_map_of_pred _ _
    (fun j => by by_cases h : j.job_id = jobId <;> simp [h]) _

theorem get_job_update_status_self {db : DB} {jobId : String} {j : JobRec}
    (h : get_job db jobId = some j) (st : String) (ec : Option Int) (now : String) :
    get_job (update_job_status db jobId st ec now) jobId =
      some { j with status := st, exit_code := ec, end_time := some now } := by
  rw [get_job_update_status, h]
  simp [get_job_some_id h]

theorem get_job_update_status_ne (db : DB) (jobId st : String) (ec : Option Int)
    (now : String) {q : String} (h : q ≠ jobId) :
    get_job (update_job_status db jobId st ec now) q = get_job db q := by
  rw [get_job_update_status]
  cases hq : get_job db q with
  | none => rfl
  | some j =>
    have hid : j.job_id = q := get_job_some_id hq
    simp [hid, h]

theorem get_job_update_outputs (db : DB) (jobId : String)
    (files : List (String × String)) (q : String) :
    get_job (update_job_output_files db jobId files) q =
      (get_job db q).map (fun j =>
        if j.job_id = jobId then { j with output_files := files } else j) := by
  unfold get_job update_job_output_files
  exact find?_map_of_pred _ _
    (fun j => by by_cases h : j.job_id = jobId <;> simp [h]) _

theorem get_job_update_outputs_self {db : DB} {jobId : String} {j : JobRec}
    (h : get_job db jobId = some j) (files : List (String × String)) :
    get_job (update_job_output_files db jobId files) jobId =
      some { j with output_files := files } := by
  rw [get_job_update_outputs, h]
  simp [get_job_some_id h]

theorem get_job_update_outputs_ne (db : DB) (jobId : String)
    (files : List (String × String)) {q : String} (h : q ≠ jobId) :
    get_job (update_job_output_files db jobId files) q = get_job db q := by
  rw [get_job_update_outputs]
  cases hq : get_job db q with
  | none => rfl
  | some j =>
    have hid : j.job_id = q := get_job_some_id hq
    simp [hid, h]

theorem update_pipeline_step_jobs (db : DB) (proj stp st : String)
    (jobId : Option String) :
    (update_pipeline_step db proj stp st jobId).jobs = db.jobs := rfl

theorem update_job_status_steps (db : DB) (jobId st : String) (ec : Option Int)
    (now : String) : (update_job_status db jobId st ec now).steps = db.steps := rfl

theorem update_job_outputs_steps (db : DB) (jobId : String)
    (files : List (String × String)) :
    (update_job_output_files db jobId files).steps = db.steps := rfl

theorem get_job_update_step (db : DB) (proj stp st : String)
    (jobId : Option String) (q : String) :
    get_job (update_pipeline_step db proj stp st jobId) q = get_job db q := by
  unfold get_job
  rw [update_pipeline_step_jobs]

theorem get_step_some_ids {db : DB} {proj stp : String} {r : StepRec}
    (h : get_step db proj stp = some r) :
    r.project_id = proj ∧ r.step_name = stp := by
  have := List.find?_some h
  constructor
  · exact by simpa using (Bool.and_eq_true _ _ |>.mp this).1
  · exact by simpa using (Bool.and_eq_true _ _ |>.mp this).2

theorem get_step_update_pipeline (db : DB) (proj stp st : String)
    (jobId : Option String) (qp qs : String) :
    get_step (update_pipeline_step db proj stp st jobId) qp qs =
      (get_step db qp qs).map (fun r =>
        if r.project_id = proj ∧ r.step_name = stp then
          if optStrTruthy jobId then { r with status := st, job_id := jobId }
          else { r with status := st }
        else r) := by
  unfold get_step update_pipeline_step
  exact find?_map_of_pred _ _ (fun r => by
    by_cases h : r.project_id = proj ∧ r.step_name = stp
    · cases hb : optStrTruthy jobId <;> simp [h, hb]
    · simp [h]) _

theorem get_step_update_pipeline_self {db : DB} {proj stp : String} {r : StepRec}
    (h : get_step db proj stp = some r) (st : String) {jid : String}
    (hjid : jid ≠ "") :
    get_step (update_pipeline_step db proj stp st (some jid)) proj stp =
      some { r with status := st, job_id := some jid } := by
  rw [get_step_update_pipeline, h]
  have hids := get_step_some_ids h
  simp [hids.1, hids.2, optStrTruthy, hjid]

theorem get_step_update_pipeline_ne (db : DB) (proj stp st : String)
    (jobId : Option String) {qp qs : String}
    (h : qp ≠ proj ∨ qs ≠ stp) :
    get_step (update_pipeline_step db proj stp st jobId) qp qs =
      get_step db qp qs := by
  rw [get_step_update_pipeline]
  cases hq : get_step db qp qs with
  | none => rfl
  | some r =>
    have hids := get_step_some_ids hq
    have : ¬ (r.project_id = proj ∧ r.step_name = stp) := by
      rcases h with h | h
      · exact fun hc => h (hids.1 ▸ hc.1)
      · exact fun hc => h (hids.2 ▸ hc.2)
    simp [this]

theorem get_step_update_status (db : DB) (jobId st : String) (ec : Option Int)
    (now : String) (qp qs : String) :
    get_step (update_job_status db jobId st ec now) qp qs = get_step db qp qs := by
  unfold get_step
  rw [update_job_status_steps]

theorem get_step_update_outputs (db : DB) (jobId : String)
    (files : List (String × String)) (qp qs : String) :
    get_step (update_job_output_files db jobId files) qp qs = get_step db qp qs := by
  unfold get_step
  rw [update_job_outputs_steps]

-- ---------------------------------------------------------------------------
-- Helper lemmas: the poll loop
-- ---------------------------------------------------------------------------

theorem processCompleted_getJob_ne (isfile : String → Bool) (now : String)
    (acc : DB × List StoreWrite) (c : (String × RegInfo) × Int) {q : String}
    (h : ¬ c.1.1 = q) :
    get_job (processCompleted isfile now acc c).1 q = get_job acc.1 q := by
  have hq : q ≠ c.1.1 := fun e => h e.symm
  simp only [processCompleted, stepUpdate, pruneOutputs]
  repeat' split
  all_goals
    simp [get_job_update_step, get_job_update_outputs_ne _ _ _ hq,
      get_job_update_status_ne _ _ _ _ _ hq]

theorem stepUpdate_getJob (st jid : String) (info : RegInfo)
    (dbw : DB × List StoreWrite) (q : String) :
    get_job (stepUpdate st jid info dbw).1 q = get_job dbw.1 q := by
  simp only [stepUpdate]
  repeat' split
  all_goals simp [get_job_update_step]

theorem pruneOutputs_getJob_self (isfile : String → Bool) (jid : String)
    (dbw : DB × List StoreWrite) {j : JobRec}
    (hj : get_job dbw.1 jid = some j) :
    get_job (pruneOutputs isfile jid dbw).1 jid =
      some { j with output_files := j.output_files.filter (fun kv => isfile kv.2) } := by
  simp only [pruneOutputs, hj]
  by_cases hof : j.output_files = []
  · simp only [hof, ne_eq, not_true_eq_false, if_false, hj, List.filter_nil]
    rcases j with ⟨⟩
    simp_all
  · simp only [ne_eq, hof, not_false_eq_true, if_true]
    by_cases hdq : pyDictEq (j.output_files.filter (fun kv => isfile kv.2)) j.output_files = true
    · rw [if_pos hdq, hj]
      rw [pyDictEq_filter_eq _ _ hdq]
    · rw [if_neg hdq]
      exact get_job_update_outputs_self hj _

theorem pruneOutputs_getJob_ne (isfile : String → Bool) (jid : String)
    (dbw : DB × List StoreWrite) {q : String} (hq : q ≠ jid) :
    get_job (pruneOutputs isfile jid dbw).1 q = get_job dbw.1 q := by
  simp only [pruneOutputs]
  repeat' split
  all_goals simp [get_job_update_outputs_ne _ _ _ hq]

theorem processCompleted_getJob_self (isfile : String → Bool) (now : String)
    (acc : DB × List StoreWrite) (e : String × RegInfo) (rc : Int) {j : JobRec}
    (hj : get_job acc.1 e.1 = some j) :
    get_job (processCompleted isfile now acc (e, rc)).1 e.1 =
      some { j with
        status := if rc = 0 then "completed" else "failed",
        exit_code := some rc, end_time := some now,
        output_files := j.output_files.filter (fun kv => isfile kv.2) } := by
  simp only [processCompleted, stepUpdate_getJob]
  have h1 := get_job_update_status_self hj
    (if rc = 0 then "completed" else "failed") (some rc) now
  have h2 := pruneOutputs_getJob_self isfile e.1
    (update_job_status acc.1 e.1 (if rc = 0 then "completed" else "failed") (some rc) now,
     acc.2 ++ [StoreWrite.wstatus e.1 (if rc = 0 then "completed" else "failed") (some rc)])
    h1
  exact h2

theorem stepUpdate_writes_cases (st jid : String) (info : RegInfo)
    (dbw : DB × List StoreWrite) (q : String) :
    (stepUpdate st jid info dbw).2.any (StoreWrite.isOutputsFor q) =
      dbw.2.any (StoreWrite.isOutputsFor q) := by
  simp only [stepUpdate]
  repeat' split
  all_goals simp [StoreWrite.isOutputsFor]

theorem pruneOutputs_writes_self (isfile : String → Bool) (jid : String)
    (dbw : DB × List StoreWrite) {j : JobRec}
    (hj : get_job dbw.1 jid = some j) :
    (pruneOutputs isfile jid dbw).2.any (StoreWrite.isOutputsFor jid) =
      (dbw.2.any (StoreWrite.isOutputsFor jid) ||
        ! pyDictEq (j.output_files.filter (fun kv => isfile kv.2)) j.output_files) := by
  simp only [pruneOutputs, hj]
  by_cases hof : j.output_files = []
  · simp [hof, pyDictEq]
  · simp only [ne_eq, hof, not_false_eq_true, if_true]
    by_cases hdq : pyDictEq (j.output_files.filter (fun kv => isfile kv.2)) j.output_files = true
    · simp [hdq]
    · simp only [if_neg hdq]
      simp only [Bool.not_eq_true] at hdq
      simp [hdq, StoreWrite.isOutputsFor]

theorem pruneOutputs_writes_ne (isfile : String → Bool) (jid : String)
    (dbw : DB × List StoreWrite) {q : String} (hq : ¬ jid = q) :
    (pruneOutputs isfile jid dbw).2.any (StoreWrite.isOutputsFor q) =
      dbw.2.any (StoreWrite.isOutputsFor q) := by
  simp only [pruneOutputs]
  repeat' split
  all_goals simp [StoreWrite.isOutputsFor, hq]

theorem processCompleted_writes_self (isfile : String → Bool) (now : String)
    (acc : DB × List StoreWrite) (e : String × RegInfo) (rc : Int) {j : JobRec}
    (hj : get_job acc.1 e.1 = some j) :
    (processCompleted isfile now acc (e, rc)).2.any (StoreWrite.isOutputsFor e.1) =
      (acc.2.any (StoreWrite.isOutputsFor e.1) ||
        ! pyDictEq (j.output_files.filter (fun kv => isfile kv.2)) j.output_files) := by
  simp only [processCompleted, stepUpdate_writes_cases]
  have h1 := get_job_update_status_self hj
    (if rc = 0 then "completed" else "failed") (some rc) now
  rw [pruneOutputs_writes_self isfile e.1 _ h1]
  simp [StoreWrite.isOutputsFor]

theorem processCompleted_writes_ne (isfile : String → Bool) (now : String)
    (acc : DB × List StoreWrite) (c : (String × RegInfo) × Int) {q : String}
    (h : ¬ c.1.1 = q) :
    (processCompleted isfile now acc c).2.any (StoreWrite.isOutputsFor q) =
      acc.2.any (StoreWrite.isOutputsFor q) := by
  simp only [processCompleted, stepUpdate_writes_cases]
  rw [pruneOutputs_writes_ne _ _ _ h]
  simp [StoreWrite.isOutputsFor, h]

theorem stepUpdate_getStep_ne (st jid : String) (info : RegInfo)
    (dbw : DB × List StoreWrite) {proj stp : String}
    (h : info.project_id ≠ some proj ∨ info.step_name ≠ some stp) :
    get_step (stepUpdate st jid info dbw).1 proj stp = get_step dbw.1 proj stp := by
  simp only [stepUpdate]
  split
  · next p' s' hp hs =>
    split
    · apply get_step_update_pipeline_ne
      rcases h with h | h
      · left; intro e; exact h (by rw [hp, e])
      · right; intro e; exact h (by rw [hs, e])
    · rfl
  · rfl

theorem stepUpdate_getStep_self (st jid : String) {info : RegInfo}
    {proj stp : String} (hp : info.project_id = some proj)
    (hs : info.step_name = some stp) (hproj : proj ≠ "") (hstp : stp ≠ "")
    (hjid : jid ≠ "") (dbw : DB × List StoreWrite) {r : StepRec}
    (hr : get_step dbw.1 proj stp = some r) :
    get_step (stepUpdate st jid info dbw).1 proj stp =
      some { r with status := st, job_id := some jid } := by
  simp only [stepUpdate, hp, hs]
  rw [if_pos ⟨hproj, hstp⟩]
  exact get_step_update_pipeline_self hr st hjid

theorem pruneOutputs_getStep (isfile : String → Bool) (jid : String)
    (dbw : DB × List StoreWrite) (proj stp : String) :
    get_step (pruneOutputs isfile jid dbw).1 proj stp = get_step dbw.1 proj stp := by
  simp only [pruneOutputs]
  repeat' split
  all_goals simp [get_step_update_outputs]

theorem processCompleted_getStep_ne (isfile : String → Bool) (now : String)
    (acc : DB × List StoreWrite) (c : (String × RegInfo) × Int) {proj stp : String}
    (h : c.1.2.project_id ≠ some proj ∨ c.1.2.step_name ≠ some stp) :
    get_step (processCompleted isfile now acc c).1 proj stp =
      get_step acc.1 proj stp := by
  simp only [processCompleted]
  rw [stepUpdate_getStep_ne _ _ _ _ h, pruneOutputs_getStep, get_step_update_status]

theorem processCompleted_getStep_self (isfile : String → Bool) (now : String)
    (acc : DB × List StoreWrite) (e : String × RegInfo) (rc : Int)
    {proj stp : String} (hp : e.2.project_id = some proj)
    (hs : e.2.step_name = some stp) (hproj : proj ≠ "") (hstp : stp ≠ "")
    (hjid : e.1 ≠ "") {r : StepRec} (hr : get_step acc.1 proj stp = some r) :
    get_step (processCompleted isfile now acc (e, rc)).1 proj stp =
      some { r with status := if rc = 0 then "completed" else "failed",
                    job_id := some e.1 } := by
  simp only [processCompleted]
  have hr2 : get_step (pruneOutputs isfile e.1
      (update_job_status acc.1 e.1 (if rc = 0 then "completed" else "failed") (some rc) now,
       acc.2 ++ [StoreWrite.wstatus e.1 (if rc = 0 then "completed" else "failed") (some rc)])).1
      proj stp = some r := by
    rw [pruneOutputs_getStep, get_step_update_status]
    exact hr
  exact stepUpdate_getStep_self _ _ hp hs hproj hstp hjid _ hr2

-- fold versions

theorem foldProcess_getJob_ne (isfile : String → Bool) (now : String) {q : String} :
    ∀ (comps : List ((String × RegInfo) × Int)) (acc : DB × List StoreWrite),
    (∀ c ∈ comps, ¬ c.1.1 = q) →
    get_job (comps.foldl (processCompleted isfile now) acc).1 q = get_job acc.1 q := by
  intro comps
  induction comps with
  | nil => intro acc _; rfl
  | cons c t ih =>
    intro acc h
    simp only [List.foldl_cons]
    rw [ih _ (fun x hx => h x (List.mem_cons_of_mem _ hx))]
    exact processCompleted_getJob_ne _ _ _ _ (h c (List.mem_cons_self _ _))

theorem foldProcess_writes_ne (isfile : String → Bool) (now : String) {q : String} :
    ∀ (comps : List ((String × RegInfo) × Int)) (acc : DB × List StoreWrite),
    (∀ c ∈ comps, ¬ c.1.1 = q) →
    (comps.foldl (processCompleted isfile now) acc).2.any (StoreWrite.isOutputsFor q) =
      acc.2.any (StoreWrite.isOutputsFor q) := by
  intro comps
  induction comps with
  | nil => intro acc _; rfl
  | cons c t ih =>
    intro acc h
    simp only [List.foldl_cons]
    rw [ih _ (fun x hx => h x (List.mem_cons_of_mem _ hx))]
    exact processCompleted_writes_ne _ _ _ _ (h c (List.mem_cons_self _ _))

theorem foldProcess_getStep_ne (isfile : String → Bool) (now : String)
    {proj stp : String} :
    ∀ (comps : List ((String × RegInfo) × Int)) (acc : DB × List StoreWrite),
    (∀ c ∈ comps, c.1.2.project_id ≠ some proj ∨ c.1.2.step_name ≠ some stp) →
    get_step (comps.foldl (processCompleted isfile now) acc).1 proj stp =
      get_step acc.1 proj stp := by
  intro comps
  induction comps with
  | nil => intro acc _; rfl
  | cons c t ih =>
    intro acc h
    simp only [List.foldl_cons]
    rw [ih _ (fun x hx => h x (List.mem_cons_of_mem _ hx))]
    exact processCompleted_getStep_ne _ _ _ _ (h c (List.mem_cons_self _ _))

/-- Elements of the per-tick completed list come from registry entries. -/
theorem mem_completedOf {poll : String → Option Int}
    {l : List (String × RegInfo)} {c : (String × RegInfo) × Int}
    (hc : c ∈ l.filterMap (fun x => (poll x.1).map (fun rc => (x, rc)))) :
    c.1 ∈ l := by
  rcases List.mem_filterMap.mp hc with ⟨x, hx, hfx⟩
  rcases ho : poll x.1 with _ | rc'
  · simp [ho] at hfx
  · rw [ho] at hfx
    have : (x, rc') = c := by simpa using hfx
    rw [← this]
    exact hx

/-- Full characterization of one poll tick for a uniquely-registered job whose
process has exited: the persisted record, the registry afterwards, and whether
an output-map write was performed. -/
theorem pollOnce_spec (poll : String → Option Int) (isfile : String → Bool)
    (now : String) (s : Sys) (a1 a2 : List (String × RegInfo))
    (e : String × RegInfo) (rc : Int) {j : JobRec}
    (hact : s.active = a1 ++ e :: a2)
    (h1 : ∀ x ∈ a1, ¬ x.1 = e.1) (h2 : ∀ x ∈ a2, ¬ x.1 = e.1)
    (hpoll : poll e.1 = some rc)
    (hj : get_job s.db e.1 = some j) :
    get_job (pollOnce poll isfile now s).1.db e.1 =
      some { j with
        status := if rc = 0 then "completed" else "failed",
        exit_code := some rc, end_time := some now,
        output_files := j.output_files.filter (fun kv => isfile kv.2) } ∧
    (pollOnce poll isfile now s).1.active =
      (a1 ++ a2).filter (fun x => (poll x.1).isNone) ∧
    ((pollOnce poll isfile now s).2.any (StoreWrite.isOutputsFor e.1) =
      ! pyDictEq (j.output_files.filter (fun kv => isfile kv.2)) j.output_files) := by
  have hmap : (s.active.filterMap (fun x => (poll x.1).map (fun r => (x, r)))) =
      (a1.filterMap (fun x => (poll x.1).map (fun r => (x, r)))) ++
      (e, rc) :: (a2.filterMap (fun x => (poll x.1).map (fun r => (x, r)))) := by
    rw [hact, List.filterMap_append, List.filterMap_cons]
    rw [hpoll]
    rfl
  have hc1 : ∀ c ∈ a1.filterMap (fun x => (poll x.1).map (fun r => (x, r))),
      ¬ c.1.1 = e.1 := fun c hc => h1 c.1 (mem_completedOf hc)
  have hc2 : ∀ c ∈ a2.filterMap (fun x => (poll x.1).map (fun r => (x, r))),
      ¬ c.1.1 = e.1 := fun c hc => h2 c.1 (mem_completedOf hc)
  have hfold : ∀ (acc : DB × List StoreWrite),
      (s.active.filterMap (fun x => (poll x.1).map (fun r => (x, r)))).foldl
        (processCompleted isfile now) acc =
      (a2.filterMap (fun x => (poll x.1).map (fun r => (x, r)))).foldl
        (processCompleted isfile now)
        (processCompleted isfile now
          ((a1.filterMap (fun x => (poll x.1).map (fun r => (x, r)))).foldl
            (processCompleted isfile now) acc) (e, rc)) := by
    intro acc
    rw [hmap, List.foldl_append, List.foldl_cons]
  have hjmid : get_job ((a1.filterMap (fun x => (poll x.1).map (fun r => (x, r)))).foldl
      (processCompleted isfile now) (s.db, [])).1 e.1 = some j := by
    rw [foldProcess_getJob_ne isfile now _ _ hc1]
    exact hj
  refine ⟨?_, ?_, ?_⟩
  · show get_job ((s.active.filterMap _).foldl (processCompleted isfile now) (s.db, [])).1 e.1 = _
    rw [hfold]
    rw [foldProcess_getJob_ne isfile now _ _ hc2]
    exact processCompleted_getJob_self isfile now _ e rc hjmid
  · show (s.active.filter (fun x => (poll x.1).isNone)) = _
    rw [hact, List.filter_append, List.filter_cons]
    have : (poll e.1).isNone = false := by rw [hpoll]; rfl
    rw [this]
    simp [List.filter_append]
  · show ((s.active.filterMap _).foldl (processCompleted isfile now) (s.db, [])).2.any
      (StoreWrite.isOutputsFor e.1) = _
    rw [hfold]
    rw [foldProcess_writes_ne isfile now _ _ hc2]
    rw [processCompleted_writes_self isfile now _ e rc hjmid]
    rw [foldProcess_writes_ne isfile now _ _ hc1]
    rfl

/-- Step-row effect of one poll tick for an exited job tied to a pipeline
step, when no other registered entry reports into the same step row. -/
theorem pollOnce_step_spec (poll : String → Option Int) (isfile : String → Bool)
    (now : String) (s : Sys) (a1 a2 : List (String × RegInfo))
    (e : String × RegInfo) (rc : Int) {proj stp : String} {r : StepRec}
    (hact : s.active = a1 ++ e :: a2)
    (hpoll : poll e.1 = some rc)
    (hp : e.2.project_id = some proj) (hs : e.2.step_name = some stp)
    (hproj : proj ≠ "") (hstp : stp ≠ "") (hjid : e.1 ≠ "")
    (hothers : ∀ x ∈ a1 ++ a2,
      x.2.project_id ≠ some proj ∨ x.2.step_name ≠ some stp)
    (hr : get_step s.db proj stp = some r) :
    get_step (pollOnce poll isfile now s).1.db proj stp =
      some { r with status := if rc = 0 then "completed" else "failed",
                    job_id := some e.1 } := by
  have hmap : (s.active.filterMap (fun x => (poll x.1).map (fun z => (x, z)))) =
      (a1.filterMap (fun x => (poll x.1).map (fun z => (x, z)))) ++
      (e, rc) :: (a2.filterMap (fun x => (poll x.1).map (fun z => (x, z)))) := by
    rw [hact, List.filterMap_append, List.filterMap_cons]
    rw [hpoll]
    rfl
  have hc1 : ∀ c ∈ a1.filterMap (fun x => (poll x.1).map (fun z => (x, z))),
      c.1.2.project_id ≠ some proj ∨ c.1.2.step_name ≠ some stp :=
    fun c hc => hothers c.1 (List.mem_append.mpr (Or.inl (mem_completedOf hc)))
  have hc2 : ∀ c ∈ a2.filterMap (fun x => (poll x.1).map (fun z => (x, z))),
      c.1.2.project_id ≠ some proj ∨ c.1.2.step_name ≠ some stp :=
    fun c hc => hothers c.1 (List.mem_append.mpr (Or.inr (mem_completedOf hc)))
  show get_step ((s.active.filterMap _).foldl (processCompleted isfile now) (s.db, [])).1
      proj stp = _
  rw [hmap, List.foldl_append, List.foldl_cons]
  rw [foldProcess_getStep_ne isfile now _ _ hc2]
  have hrmid : get_step ((a1.filterMap (fun x => (poll x.1).map (fun z => (x, z)))).foldl
      (processCompleted isfile now) (s.db, [])).1 proj stp = some r := by
    rw [foldProcess_getStep_ne isfile now _ _ hc1]
    exact hr
  exact processCompleted_getStep_self isfile now _ e rc hp hs hproj hstp hjid hrmid

theorem processCompleted_getJob_none (isfile : String → Bool) (now : String)
    (acc : DB × List StoreWrite) (c : (String × RegInfo) × Int)
    (h : get_job acc.1 c.1.1 = none) :
    get_job (processCompleted isfile now acc c).1 c.1.1 = none := by
  simp only [processCompleted, stepUpdate_getJob]
  have h1 : get_job (update_job_status acc.1 c.1.1
      (if c.2 = 0 then "completed" else "failed") (some c.2) now) c.1.1 = none := by
    rw [get_job_update_status, h]
    rfl
  simp only [pruneOutputs, h1]

/-- Any record visible after a fold of completed-job processing either was
already there untouched, or belongs to a processed entry and carries a
terminal `completed`/`failed` status. -/
theorem foldProcess_getJob_cases (isfile : String → Bool) (now : String)
    {q : String} :
    ∀ (comps : List ((String × RegInfo) × Int)) (acc : DB × List StoreWrite)
      {j' : JobRec},
    get_job (comps.foldl (processCompleted isfile now) acc).1 q = some j' →
    (get_job acc.1 q = some j' ∧ ∀ c ∈ comps, ¬ c.1.1 = q) ∨
    ((j'.status = "completed" ∨ j'.status = "failed") ∧ ∃ c ∈ comps, c.1.1 = q) := by
  intro comps
  induction comps with
  | nil => intro acc j' h; exact Or.inl ⟨h, by simp⟩
  | cons c t ih =>
    intro acc j' h
    simp only [List.foldl_cons] at h
    rcases ih _ h with ⟨hmid, hnt⟩ | ⟨hst, cdone, hcd, hcq⟩
    · by_cases hcq : c.1.1 = q
      · subst hcq
        cases hacc : get_job acc.1 c.1.1 with
        | none =>
          rw [processCompleted_getJob_none isfile now acc c hacc] at hmid
          cases hmid
        | some j0 =>
          have := processCompleted_getJob_self isfile now acc c.1 c.2 hacc
          have hc : (c.1, c.2) = c := rfl
          rw [hc] at this
          rw [this] at hmid
          have hj' : j' = { j0 with
              status := if c.2 = 0 then "completed" else "failed",
              exit_code := some c.2, end_time := some now,
              output_files := j0.output_files.filter (fun kv => isfile kv.2) } := by
            cases hmid
            rfl
          right
          constructor
          · rw [hj']
            by_cases hz : c.2 = 0 <;> simp [hz]
          · exact ⟨c, List.mem_cons_self _ _, rfl⟩
      · left
        rw [processCompleted_getJob_ne isfile now acc c hcq] at hmid
        refine ⟨hmid, ?_⟩
        intro x hx
        rcases List.mem_cons.mp hx with hx | hx
        · rw [hx]; exact hcq
        · exact hnt x hx
    · right
      exact ⟨hst, cdone, List.mem_cons_of_mem _ hcd, hcq⟩

theorem insert_job_ok {db : DB} {j : JobRec} {db' : DB}
    (h : insert_job db j = .ok db') :
    db' = { db with jobs := db.jobs ++ [j] } ∧
    (db.jobs.any (fun x => x.job_id == j.job_id)) = false := by
  unfold insert_job at h
  split at h
  · cases h
  · next hc =>
    cases h
    exact ⟨rfl, by simpa using hc⟩

theorem insert_job_steps {db : DB} {j : JobRec} {db' : DB}
    (h : insert_job db j = .ok db') : db'.steps = db.steps := by
  rw [(insert_job_ok h).1]

/-- `cancel_job` on a live pid with successful delivery: returns `True`,
persists `cancelled` with exit code -15, leaves the registry untouched. -/
theorem cancel_job_delivered {s : Sys} {jobId : String} {j : JobRec} {p : Int}
    (now : String) (hj : get_job s.db jobId = some j) (hp : j.pid = some p)
    (hpz : ¬ p = 0) :
    cancel_job .delivered now s jobId =
      .ok (true, { s with
        db := update_job_status s.db jobId "cancelled" (some (-15)) now }) := by
  simp only [cancel_job, hj, hp]
  rw [if_neg hpz]

theorem submit_job_steps (tools : List (String × ToolSpec)) (jobId : String)
    (pid : Int) (now : String) (s : Sys) (toolName : String)
    (params : List (String × Value)) (projectId stepName : Option String) :
    ((submit_job tools jobId pid now s toolName params projectId stepName).2).db.steps =
      s.db.steps := by
  unfold submit_job
  split
  · rfl
  · split
    · rfl
    · split
      · rfl
      · dsimp only
        split
        · rfl
        · split
          · rfl
          · next db1 hins =>
            split
            · exact (update_job_outputs_steps _ _ _).trans (insert_job_steps hins)
            · exact insert_job_steps hins

/-- `submit_job` never modifies a pre-existing job record. -/
theorem submit_job_preserves (tools : List (String × ToolSpec)) (jobId : String)
    (pid : Int) (now : String) (s : Sys) (toolName : String)
    (params : List (String × Value)) (projectId stepName : Option String)
    {q : String} {j : JobRec} (hq : get_job s.db q = some j) :
    get_job ((submit_job tools jobId pid now s toolName params projectId stepName).2).db q =
      some j := by
  unfold submit_job
  split
  · exact hq
  · split
    · exact hq
    · split
      · exact hq
      · dsimp only
        split
        · exact hq
        · split
          · exact hq
          · next db1 hins =>
            rcases insert_job_ok hins with ⟨hdb1, hfresh⟩
            have hqid : j.job_id = q := get_job_some_id hq
            have hfresh2 : s.db.jobs.any (fun x => x.job_id == jobId) = false := hfresh
            have hqne : q ≠ jobId := by
              intro e
              have hmem : j ∈ s.db.jobs := List.mem_of_find?_eq_some hq
              have hany : s.db.jobs.any (fun x => x.job_id == jobId) = true :=
                List.any_eq_true.mpr ⟨j, hmem, by simp [hqid, e]⟩
              rw [hany] at hfresh2
              cases hfresh2
            have hget1 : get_job db1 q = some j := by
              rw [hdb1]
              unfold get_job at hq ⊢
              simp only [List.find?_append, hq]
              rfl
            split
            · exact (get_job_update_outputs_ne _ _ _ hqne).trans hget1
            · exact hget1

-- ---------------------------------------------------------------------------
-- C4
-- ---------------------------------------------------------------------------

/-- C4: a submission with an unknown tool name, a missing required
non-positional parameter, or a missing declared positional parameter fails
synchronously with the corresponding distinct error kind (`unknownTool`,
`missingRequired`, `missingPositional`) and the store and registry are left
exactly as they were — no job record is inserted, no partial state. -/
theorem claimC4 (tools : List (String × ToolSpec)) (jobId : String) (pid : Int)
    (now : String) (s : Sys) (toolName : String) (params : List (String × Value))
    (projectId stepName : Option String) :
    (tools.lookup toolName = none →
      submit_job tools jobId pid now s toolName params projectId stepName =
        (.error (.unknownTool toolName), s)) ∧
    (∀ spec, tools.lookup toolName = some spec →
      (∃ p ∈ spec.params, p.required = true ∧ params.lookup p.python_name = none ∧
        p.python_name ≠ spec.subparser_param) →
      ∃ nm, submit_job tools jobId pid now s toolName params projectId stepName =
        (.error (.missingRequired nm), s)) ∧
    (∀ spec, tools.lookup toolName = some spec →
      (∀ p ∈ spec.params, p.required = true → p.python_name ≠ spec.subparser_param →
        (params.lookup p.python_name).isSome) →
      spec.has_subparser = true →
      params.lookup spec.subparser_param = none →
      submit_job tools jobId pid now s toolName params projectId stepName =
        (.error (.missingPositional spec.subparser_param), s)) := by
  refine ⟨?_, ?_, ?_⟩
  · intro h
    simp only [submit_job, h]
  · intro spec hspec hex
    have hsome : (spec.params.find? (fun p =>
        p.required && (params.lookup p.python_name).isNone &&
        p.python_name != spec.subparser_param)).isSome := by
      rcases hex with ⟨p, hp, hreq, habs, hne⟩
      apply List.find?_isSome.mpr
      exact ⟨p, hp, by simp [hreq, habs, hne]⟩
    rcases Option.isSome_iff_exists.mp hsome with ⟨p0, hf⟩
    refine ⟨p0.python_name, ?_⟩
    simp only [submit_job, hspec, hf]
  · intro spec hspec hall hsub habs
    have hfnone : spec.params.find? (fun p =>
        p.required && (params.lookup p.python_name).isNone &&
        p.python_name != spec.subparser_param) = none := by
      apply List.find?_eq_none.mpr
      intro p hp
      simp only [Bool.and_eq_true, bne_iff_ne, ne_eq, not_and]
      intro ⟨hreq, hnone⟩
      intro hne
      have := hall p hp hreq hne
      rw [Option.isNone_iff_eq_none] at hnone
      rw [hnone] at this
      cases this
    simp only [submit_job, hspec, hfnone]
    rw [if_pos ⟨hsub, by rw [habs]; rfl⟩]

/-- A tool spec exercising every validation path of C4. -/
def specC4 : ToolSpec :=
  { name := "t", script_name := "t.py",
    params := [
      { python_name := "sub", cli_flag := "", required := true },
      { python_name := "x", cli_flag := "--x", required := true }],
    has_subparser := true, subparser_param := "sub" }

theorem claimC4_witness :
    (submit_job [("t", specC4)] "J" 1 "n" ⟨⟨[], []⟩, []⟩ "zzz" [] none none =
      (.error (.unknownTool "zzz"), ⟨⟨[], []⟩, []⟩)) ∧
    (∃ nm, submit_job [("t", specC4)] "J" 1 "n" ⟨⟨[], []⟩, []⟩ "t" [] none none =
      (.error (.missingRequired nm), ⟨⟨[], []⟩, []⟩)) ∧
    (submit_job [("t", specC4)] "J" 1 "n" ⟨⟨[], []⟩, []⟩ "t" [("x", .str "v")] none none =
      (.error (.missingPositional "sub"), ⟨⟨[], []⟩, []⟩)) := by
  refine ⟨?_, ?_, ?_⟩
  · exact (claimC4 [("t", specC4)] "J" 1 "n" ⟨⟨[], []⟩, []⟩ "zzz" [] none none).1 rfl
  · exact (claimC4 [("t", specC4)] "J" 1 "n" ⟨⟨[], []⟩, []⟩ "t" [] none none).2.1
      specC4 rfl ⟨{ python_name := "x", cli_flag := "--x", required := true },
        by simp [specC4], rfl, rfl, by decide⟩
  · exact (claimC4 [("t", specC4)] "J" 1 "n" ⟨⟨[], []⟩, []⟩ "t"
      [("x", .str "v")] none none).2.2 specC4 rfl
      (by
        intro p hp hreq hne
        simp only [specC4, List.mem_cons, List.not_mem_nil, or_false] at hp
        rcases hp with hp | hp
        · subst hp; exact absurd rfl hne
        · subst hp; rfl)
      rfl rfl

-- ---------------------------------------------------------------------------
-- C8
-- ---------------------------------------------------------------------------

/-- C8: `cancel_job` on an unknown job id fails with `jobNotFound`; on a job
record whose pid is falsy (NULL or 0) it returns `False` without error and
leaves the whole state — in particular the job's status — unchanged. -/
theorem claimC8 (kill : KillOutcome) (now : String) (s : Sys) (jobId : String) :
    (get_job s.db jobId = none →
      cancel_job kill now s jobId = .error (.jobNotFound jobId)) ∧
    (∀ j, get_job s.db jobId = some j → (j.pid = none ∨ j.pid = some 0) →
      cancel_job kill now s jobId = .ok (false, s)) := by
  constructor
  · intro h
    simp only [cancel_job, h]
  · intro j hj hpid
    rcases hpid with hpid | hpid
    · simp only [cancel_job, hj, hpid]
    · simp only [cancel_job, hj, hpid]
      rfl

/-- A job record with no recorded pid, for the C8 witness. -/
def jobNoPid : JobRec :=
  { job_id := "J", project_id := none, tool_name := "t", step_name := none,
    params := [], command := [], status := "running", pid := none,
    start_time := "s", end_time := none, exit_code := none, stdout_file := "",
    stderr_file := "", log_file := "", output_files := [], working_dir := "",
    created_at := "c" }

theorem claimC8_witness :
    (cancel_job .delivered "n" ⟨⟨[jobNoPid], []⟩, []⟩ "K" =
      .error (.jobNotFound "K")) ∧
    (cancel_job .delivered "n" ⟨⟨[jobNoPid], []⟩, []⟩ "J" =
      .ok (false, ⟨⟨[jobNoPid], []⟩, []⟩)) := by
  constructor
  · exact (claimC8 .delivered "n" ⟨⟨[jobNoPid], []⟩, []⟩ "K").1 rfl
  · exact (claimC8 .delivered "n" ⟨⟨[jobNoPid], []⟩, []⟩ "J").2 jobNoPid rfl (Or.inl rfl)

-- ---------------------------------------------------------------------------
-- C10
-- ---------------------------------------------------------------------------

/-- C10: `resolve_inputs_for_step` is total at its interface: an unknown step
name, or a project with no completed job carrying a non-empty output map,
yields the empty map rather than an error. -/
theorem claimC10 (tools : List (String × ToolSpec)) (db : DB)
    (projectId stepName : String) :
    (tools.lookup stepName = none →
      resolve_inputs_for_step tools db projectId stepName = []) ∧
    (completedJobsForProject db projectId = [] →
      resolve_inputs_for_step tools db projectId stepName = []) := by
  constructor
  · intro h
    simp only [resolve_inputs_for_step, h]
  · intro h
    simp only [resolve_inputs_for_step, h]
    cases tools.lookup stepName <;> simp

theorem claimC10_witness :
    resolve_inputs_for_step [] ⟨[], []⟩ "p" "zzz" = [] ∧
    resolve_inputs_for_step
      [("remove_chimera", { name := "remove_chimera", script_name := "rc.py" })]
      ⟨[], []⟩ "p" "remove_chimera" = [] := by
  constructor
  · exact (claimC10 [] ⟨[], []⟩ "p" "zzz").1 rfl
  · exact (claimC10
      [("remove_chimera", { name := "remove_chimera", script_name := "rc.py" })]
      ⟨[], []⟩ "p" "remove_chimera").2 rfl

-- ---------------------------------------------------------------------------
-- C7: counterexample and amended claim
-- ---------------------------------------------------------------------------

/-- A tool declaring only the catalogue's `nb_cpus` parameter (an `int`
parameter with declared default 1 that is not an output file). -/
def nbTool : ToolSpec :=
  { name := "t", script_name := "t.py",
    params := [{ python_name := "nb_cpus", cli_flag := "--nb-cpus",
                 type := "int", default := .int 1 }] }

/-- C7 counterexample: the claim says a non-positional parameter that is
absent from the caller map and is not an output-file parameter is omitted
from the command — but `nb_cpus`, unsupplied, receives the configured default
4 and its flag is emitted, so the claim as stated is false at this input. -/
theorem claimC7_counterexample :
    build_command nbTool [] "/jd" =
      .ok ⟨[.str FROGS_PYTHON, .str nbTool.script_path,
            .str "--nb-cpus", .str "4"], []⟩ ∧
    (applyNbCpus nbTool (applyDefaults nbTool [])).lookup "nb_cpus" =
      some (.int 4) := by
  constructor <;> rfl

theorem adStep_lookup_ne (sub : String) (params : List (String × Value))
    (m : List (String × Value)) (p : ParamSpec) {pn : String}
    (h : p.python_name ≠ pn) :
    (adStep sub params m p).lookup pn = m.lookup pn := by
  have hne : pn ≠ p.python_name := fun e => h e.symm
  unfold adStep
  repeat' split
  all_goals simp [lookup_dinsert_ne _ _ _ _ hne]

theorem foldl_adStep_ne (sub : String) (params : List (String × Value)) :
    ∀ (ps : List ParamSpec) (m : List (String × Value)) {pn : String},
    (∀ p' ∈ ps, p'.python_name ≠ pn) →
    (ps.foldl (adStep sub params) m).lookup pn = m.lookup pn := by
  intro ps
  induction ps with
  | nil => intro m pn _; rfl
  | cons p t ih =>
    intro m pn h
    simp only [List.foldl_cons]
    rw [ih _ (fun x hx => h x (List.mem_cons_of_mem _ hx))]
    exact adStep_lookup_ne _ _ _ _ (h p (List.mem_cons_self _ _))

theorem applyDefaults_lookup_present (tool : ToolSpec)
    (params : List (String × Value)) (p : ParamSpec) (ps1 ps2 : List ParamSpec)
    {v : Value} (hdec : tool.params = ps1 ++ p :: ps2)
    (huniq : ∀ p' ∈ ps1 ++ ps2, p'.python_name ≠ p.python_name)
    (hsub : p.python_name ≠ tool.subparser_param)
    (hv : params.lookup p.python_name = some v) :
    (applyDefaults tool params).lookup p.python_name = some v := by
  unfold applyDefaults
  rw [hdec, List.foldl_append, List.foldl_cons]
  rw [foldl_adStep_ne _ _ ps2 _
    (fun x hx => huniq x (List.mem_append.mpr (Or.inr hx)))]
  unfold adStep
  rw [if_neg hsub, hv, lookup_dinsert_self]

theorem applyDefaults_lookup_default (tool : ToolSpec)
    (params : List (String × Value)) (p : ParamSpec) (ps1 ps2 : List ParamSpec)
    (hdec : tool.params = ps1 ++ p :: ps2)
    (huniq : ∀ p' ∈ ps1 ++ ps2, p'.python_name ≠ p.python_name)
    (hsub : p.python_name ≠ tool.subparser_param)
    (hv : params.lookup p.python_name = none)
    (hd : p.default ≠ .vnone) (ho : p.is_output_file = true) :
    (applyDefaults tool params).lookup p.python_name = some p.default := by
  unfold applyDefaults
  rw [hdec, List.foldl_append, List.foldl_cons]
  rw [foldl_adStep_ne _ _ ps2 _
    (fun x hx => huniq x (List.mem_append.mpr (Or.inr hx)))]
  unfold adStep
  rw [if_neg hsub, hv]
  cases hdf : p.default with
  | vnone => exact absurd hdf hd
  | str a => rw [ho]; simp [lookup_dinsert_self, hdf]
  | int a => rw [ho]; simp [lookup_dinsert_self, hdf]
  | bool a => rw [ho]; simp [lookup_dinsert_self, hdf]
  | list a => rw [ho]; simp [lookup_dinsert_self, hdf]

theorem adStep_lookup_absent (sub : String) (params : List (String × Value))
    (m : List (String × Value)) (p : ParamSpec)
    (hv : params.lookup p.python_name = none)
    (hor : p.default = .vnone ∨ p.is_output_file = false) :
    (adStep sub params m p).lookup p.python_name = m.lookup p.python_name := by
  unfold adStep
  by_cases hsub : p.python_name = sub
  · rw [if_pos hsub]
  · rw [if_neg hsub, hv]
    rcases hor with hor | hor
    · cases ho : p.is_output_file <;> simp [hor]
    · cases hdf : p.default <;> simp [hor]

theorem applyDefaults_lookup_absent (tool : ToolSpec)
    (params : List (String × Value)) (p : ParamSpec) (ps1 ps2 : List ParamSpec)
    (hdec : tool.params = ps1 ++ p :: ps2)
    (huniq : ∀ p' ∈ ps1 ++ ps2, p'.python_name ≠ p.python_name)
    (hv : params.lookup p.python_name = none)
    (hor : p.default = .vnone ∨ p.is_output_file = false) :
    (applyDefaults tool params).lookup p.python_name = none := by
  unfold applyDefaults
  rw [hdec, List.foldl_append, List.foldl_cons]
  rw [foldl_adStep_ne _ _ ps2 _
    (fun x hx => huniq x (List.mem_append.mpr (Or.inr hx)))]
  rw [adStep_lookup_absent _ _ _ _ hv hor]
  rw [foldl_adStep_ne _ _ ps1 _
    (fun x hx => huniq x (List.mem_append.mpr (Or.inl hx)))]
  rfl

theorem resolveOutputs_lookup_ne (jobDir : String) :
    ∀ (ps : List ParamSpec) (m : List (String × Value))
      (outs : List (String × String)) (m' : List (String × Value))
      (outs' : List (String × String)) (pn : String),
    resolveOutputs jobDir ps m outs = .ok (m', outs') →
    (∀ p' ∈ ps, p'.python_name ≠ pn) →
    m'.lookup pn = m.lookup pn
  | [], m, outs => by
    intro m' outs' pn h _
    cases h
    rfl
  | p :: rest, m, outs => by
    intro m' outs' pn h hne
    have hp : pn ≠ p.python_name := fun e => hne p (List.mem_cons_self _ _) e.symm
    have hrest := fun x hx => hne x (List.mem_cons_of_mem _ hx)
    simp only [resolveOutputs] at h
    split at h
    · split at h
      · split at h
        · rw [resolveOutputs_lookup_ne jobDir rest _ _ _ _ _ h hrest]
          split
          · rfl
          · exact lookup_dinsert_ne _ _ _ _ hp
        · cases h
      · exact (resolveOutputs_lookup_ne jobDir rest _ _ _ _ _ h hrest)
    · exact (resolveOutputs_lookup_ne jobDir rest _ _ _ _ _ h hrest)

theorem resolveOutputs_none (jobDir : String) :
    ∀ (ps : List ParamSpec) (m : List (String × Value))
      (outs : List (String × String)) (m' : List (String × Value))
      (outs' : List (String × String)) (pn : String),
    resolveOutputs jobDir ps m outs = .ok (m', outs') →
    m.lookup pn = none →
    m'.lookup pn = none
  | [], m, outs => by
    intro m' outs' pn h hn
    cases h
    exact hn
  | p :: rest, m, outs => by
    intro m' outs' pn h hn
    simp only [resolveOutputs] at h
    split at h
    · next v hv =>
      split at h
      · split at h
        · apply resolveOutputs_none jobDir rest _ _ _ _ _ h
          split
          · exact hn
          · by_cases hp : pn = p.python_name
            · rw [hp] at hn
              rw [hn] at hv
              cases hv
            · rw [lookup_dinsert_ne _ _ _ _ hp]
              exact hn
        · cases h
      · exact resolveOutputs_none jobDir rest _ _ _ _ _ h hn
    · exact resolveOutputs_none jobDir rest _ _ _ _ _ h hn

theorem resolveOutputs_outs_ne (jobDir : String) :
    ∀ (ps : List ParamSpec) (m : List (String × Value))
      (outs : List (String × String)) (m' : List (String × Value))
      (outs' : List (String × String)) (key : String),
    resolveOutputs jobDir ps m outs = .ok (m', outs') →
    (∀ p' ∈ ps, p'.output_key ≠ some key) →
    outs'.lookup key = outs.lookup key
  | [], m, outs => by
    intro m' outs' key h _
    cases h
    rfl
  | p :: rest, m, outs => by
    intro m' outs' key h hne
    have hp := hne p (List.mem_cons_self _ _)
    have hrest := fun x hx => hne x (List.mem_cons_of_mem _ hx)
    simp only [resolveOutputs] at h
    split at h
    · split at h
      · split at h
        · rw [resolveOutputs_outs_ne jobDir rest _ _ _ _ _ h hrest]
          split
          · next k hk =>
            have hkk : key ≠ k := by
              intro e
              exact hp (by rw [hk, e])
            split
            · rfl
            · exact lookup_dinsert_ne _ _ _ _ hkk
          · rfl
        · cases h
      · exact resolveOutputs_outs_ne jobDir rest _ _ _ _ _ h hrest
    · exact resolveOutputs_outs_ne jobDir rest _ _ _ _ _ h hrest

theorem resolveOutputs_append (jobDir : String) :
    ∀ (ps1 ps2 : List ParamSpec) (m : List (String × Value))
      (outs : List (String × String)),
    resolveOutputs jobDir (ps1 ++ ps2) m outs =
      (match resolveOutputs jobDir ps1 m outs with
       | .ok (mi, oi) => resolveOutputs jobDir ps2 mi oi
       | .error e => .error e)
  | [], ps2, m, outs => rfl
  | p :: rest, ps2, m, outs => by
    simp only [List.cons_append, resolveOutputs]
    split
    · split
      · split
        · exact resolveOutputs_append jobDir rest ps2 _ _
        · rfl
      · exact resolveOutputs_append jobDir rest ps2 _ _
    · exact resolveOutputs_append jobDir rest ps2 _ _

/-- One step of `resolveOutputs` on an output-file parameter holding a truthy
string value. -/
theorem resolveOutputs_cons_output (jobDir : String) (p : ParamSpec)
    (ps2 : List ParamSpec) (m : List (String × Value))
    (outs : List (String × String)) {sv : String}
    (ho : p.is_output_file = true)
    (hv : m.lookup p.python_name = some (.str sv)) (hsv : sv ≠ "") :
    resolveOutputs jobDir (p :: ps2) m outs =
      resolveOutputs jobDir ps2
        (if osPathIsAbs sv then m
         else dinsert m p.python_name (.str (osPathJoin jobDir sv)))
        (match p.output_key with
         | some k => if k = "" then outs
             else dinsert outs k (if osPathIsAbs sv then sv else osPathJoin jobDir sv)
         | none => outs) := by
  have ht : (Value.str sv).truthy = true := by simp [Value.truthy, hsv]
  simp only [resolveOutputs, ho, hv, ht, if_true]
  cases habs : osPathIsAbs sv <;> simp [habs]

theorem applyNbCpus_lookup_ne (tool : ToolSpec) (m : List (String × Value))
    {pn : String} (h : pn ≠ "nb_cpus") :
    (applyNbCpus tool m).lookup pn = m.lookup pn := by
  unfold applyNbCpus
  split
  · exact lookup_dinsert_ne _ _ _ _ h
  · rfl

theorem applyNbCpus_lookup_nb (tool : ToolSpec) (m : List (String × Value))
    (hdecl : tool.params.any (fun p => p.python_name == "nb_cpus") = true)
    (habs : m.lookup "nb_cpus" = none) :
    (applyNbCpus tool m).lookup "nb_cpus" = some (.int DEFAULT_NB_CPUS) := by
  unfold applyNbCpus
  rw [if_pos ⟨hdecl, by rw [habs]; rfl⟩]
  exact lookup_dinsert_self _ _ _

/-- A parameter absent from the merged map contributes no tokens. -/
theorem emitFlag_of_none (sp : String) (merged : List (String × Value))
    (p : ParamSpec) (h : merged.lookup p.python_name = none) :
    emitFlag sp merged p = [] := by
  unfold emitFlag
  split
  · rfl
  · split
    · rfl
    · rw [h]

/-- C7 (amended): for a non-positional parameter `p` of a tool (with
distinctly-named parameters), the Command Builder's effective value is the
caller-supplied value if present; otherwise the declared default only when
`p` is an output-file parameter; otherwise the parameter is absent from the
merged map and contributes no command tokens — EXCEPT the CPU-count
parameter `nb_cpus`, which when declared and unsupplied receives the
configured default `DEFAULT_NB_CPUS`. Every truthy string effective value of
an output-file parameter that is not already absolute is rewritten under the
job directory and recorded under the parameter's output-classification key
(when that key is declared, truthy and unique to `p`). -/
theorem claimC7_amended (tool : ToolSpec) (params : List (String × Value))
    (jobDir : String) (p : ParamSpec) (ps1 ps2 : List ParamSpec)
    (hdec : tool.params = ps1 ++ p :: ps2)
    (huniq : ∀ p' ∈ ps1 ++ ps2, p'.python_name ≠ p.python_name)
    (hsub : p.python_name ≠ tool.subparser_param) :
    (∀ v, params.lookup p.python_name = some v →
      (applyDefaults tool params).lookup p.python_name = some v) ∧
    (params.lookup p.python_name = none → p.default ≠ .vnone →
      p.is_output_file = true →
      (applyDefaults tool params).lookup p.python_name = some p.default) ∧
    (params.lookup p.python_name = none →
      (p.default = .vnone ∨ p.is_output_file = false) →
      p.python_name ≠ "nb_cpus" →
      ∀ m1 outs,
        resolveOutputs jobDir tool.params (applyDefaults tool params) [] = .ok (m1, outs) →
        (applyNbCpus tool m1).lookup p.python_name = none ∧
        emitFlag tool.subparser_param (applyNbCpus tool m1) p = []) ∧
    (params.lookup p.python_name = none →
      (p.default = .vnone ∨ p.is_output_file = false) →
      p.python_name = "nb_cpus" →
      ∀ m1 outs,
        resolveOutputs jobDir tool.params (applyDefaults tool params) [] = .ok (m1, outs) →
        (applyNbCpus tool m1).lookup p.python_name = some (.int DEFAULT_NB_CPUS)) ∧
    (∀ sv, p.is_output_file = true →
      (applyDefaults tool params).lookup p.python_name = some (.str sv) →
      sv ≠ "" →
      ∀ m1 outs,
        resolveOutputs jobDir tool.params (applyDefaults tool params) [] = .ok (m1, outs) →
        m1.lookup p.python_name =
          some (.str (if osPathIsAbs sv then sv else osPathJoin jobDir sv)) ∧
        (∀ key, p.output_key = some key → key ≠ "" →
          (∀ p' ∈ ps1 ++ ps2, p'.output_key ≠ some key) →
          outs.lookup key =
            some (if osPathIsAbs sv then sv else osPathJoin jobDir sv))) := by
  refine ⟨?_, ?_, ?_, ?_, ?_⟩
  · intro v hv
    exact applyDefaults_lookup_present tool params p ps1 ps2 hdec huniq hsub hv
  · intro hv hd ho
    exact applyDefaults_lookup_default tool params p ps1 ps2 hdec huniq hsub hv hd ho
  · intro hv hor hnb m1 outs h
    have h0 := applyDefaults_lookup_absent tool params p ps1 ps2 hdec huniq hv hor
    have h1 : m1.lookup p.python_name = none :=
      resolveOutputs_none jobDir tool.params _ _ _ _ _ h h0
    have h2 : (applyNbCpus tool m1).lookup p.python_name = none := by
      rw [applyNbCpus_lookup_ne tool m1 hnb]
      exact h1
    exact ⟨h2, emitFlag_of_none _ _ _ h2⟩
  · intro hv hor hnb m1 outs h
    have h0 := applyDefaults_lookup_absent tool params p ps1 ps2 hdec huniq hv hor
    have h1 : m1.lookup p.python_name = none :=
      resolveOutputs_none jobDir tool.params _ _ _ _ _ h h0
    have hdecl : tool.params.any (fun q => q.python_name == "nb_cpus") = true := by
      apply List.any_eq_true.mpr
      refine ⟨p, ?_, by simp [hnb]⟩
      rw [hdec]
      exact List.mem_append.mpr (Or.inr (List.mem_cons_self _ _))
    rw [hnb] at h1 ⊢
    exact applyNbCpus_lookup_nb tool m1 hdecl h1
  · intro sv ho hv hsv m1 outs h
    rw [hdec] at h
    rw [resolveOutputs_append jobDir ps1 (p :: ps2) _ _] at h
    cases hmid : resolveOutputs jobDir ps1 (applyDefaults tool params) [] with
    | error e => rw [hmid] at h; cases h
    | ok mo =>
      rcases mo with ⟨mi, oi⟩
      rw [hmid] at h
      replace h : resolveOutputs jobDir (p :: ps2) mi oi = .ok (m1, outs) := h
      have hvi : mi.lookup p.python_name = some (.str sv) := by
        rw [resolveOutputs_lookup_ne jobDir ps1 _ _ _ _ _ hmid
          (fun x hx => huniq x (List.mem_append.mpr (Or.inl hx)))]
        exact hv
      rw [resolveOutputs_cons_output jobDir p ps2 mi oi ho hvi hsv] at h
      constructor
      · rw [resolveOutputs_lookup_ne jobDir ps2 _ _ _ _ _ h
          (fun x hx => huniq x (List.mem_append.mpr (Or.inr hx)))]
        cases habs : osPathIsAbs sv
        · simp [habs, lookup_dinsert_self]
        · simp [habs, hvi]
      · intro key hkey hkne hkuniq
        have houts := resolveOutputs_outs_ne jobDir ps2 _ _ _ _ _ h
          (fun x hx => hkuniq x (List.mem_append.mpr (Or.inr hx)))
        rw [houts, hkey]
        cases habs : osPathIsAbs sv
        · simp [habs, hkne, lookup_dinsert_self]
        · simp [habs, hkne, lookup_dinsert_self]

/-- Output-file parameter for the C7 witness. -/
def pOut : ParamSpec :=
  { python_name := "out", cli_flag := "--out", type := "str",
    default := .str "a.out", is_output_file := true, output_key := some "k" }

/-- Optional non-output parameter with a declared default, for the C7
witness. -/
def pOpt : ParamSpec :=
  { python_name := "opt", cli_flag := "--opt", type := "str",
    default := .str "d" }

/-- Tool for the C7 witness. -/
def specC7 : ToolSpec :=
  { name := "t", script_name := "t.py", params := [pOut, pOpt] }

theorem claimC7_witness :
    ((applyDefaults specC7 [("opt", Value.str "v")]).lookup "opt" =
      some (.str "v")) ∧
    ((applyDefaults specC7 []).lookup "out" = some (.str "a.out")) ∧
    ((applyNbCpus specC7 [("out", Value.str "/jd/a.out")]).lookup "opt" = none ∧
      emitFlag specC7.subparser_param
        (applyNbCpus specC7 [("out", Value.str "/jd/a.out")]) pOpt = []) ∧
    ([("out", Value.str "/jd/a.out")].lookup "out" =
      some (.str (if osPathIsAbs "a.out" then "a.out"
                  else osPathJoin "/jd" "a.out")) ∧
      [("k", "/jd/a.out")].lookup "k" =
        some (if osPathIsAbs "a.out" then "a.out"
              else osPathJoin "/jd" "a.out")) := by
  have huniqOpt : ∀ p' ∈ [pOut] ++ ([] : List ParamSpec),
      p'.python_name ≠ pOpt.python_name := by
    intro p' hp'
    simp only [List.append_nil, List.mem_singleton] at hp'
    subst hp'
    decide
  have huniqOut : ∀ p' ∈ ([] : List ParamSpec) ++ [pOpt],
      p'.python_name ≠ pOut.python_name := by
    intro p' hp'
    simp only [List.nil_append, List.mem_singleton] at hp'
    subst hp'
    decide
  refine ⟨?_, ?_, ?_, ?_⟩
  · exact (claimC7_amended specC7 [("opt", Value.str "v")] "/jd" pOpt [pOut] []
      rfl huniqOpt (by decide)).1 (.str "v") rfl
  · exact (claimC7_amended specC7 [] "/jd" pOut [] [pOpt]
      rfl huniqOut (by decide)).2.1 rfl (fun h => Value.noConfusion h) rfl
  · exact (claimC7_amended specC7 [] "/jd" pOpt [pOut] []
      rfl huniqOpt (by decide)).2.2.1 rfl (Or.inr rfl) (by decide)
      [("out", Value.str "/jd/a.out")] [("k", "/jd/a.out")] rfl
  · have h5 := (claimC7_amended specC7 [] "/jd" pOut [] [pOpt]
      rfl huniqOut (by decide)).2.2.2.2 "a.out" rfl rfl (by decide)
      [("out", Value.str "/jd/a.out")] [("k", "/jd/a.out")] rfl
    refine ⟨h5.1, ?_⟩
    exact h5.2 "k" rfl (by decide) (by
      intro p' hp'
      simp only [List.nil_append, List.mem_singleton] at hp'
      subst hp'
      intro hc
      cases hc)

-- ---------------------------------------------------------------------------
-- C9: list-parameter round trip
-- ---------------------------------------------------------------------------

theorem dinsert_lookup_congr {β : Type} (m m' : List (String × β)) (k : String)
    (v : β) (kk : String) (h : m.lookup kk = m'.lookup kk) :
    (dinsert m k v).lookup kk = (dinsert m' k v).lookup kk := by
  rw [lookup_dinsert, lookup_dinsert, h]

theorem adStep_agree (sub : String) (params params' : List (String × Value))
    {pn : String}
    (hag : ∀ kk, kk ≠ pn → params.lookup kk = params'.lookup kk)
    (m m' : List (String × Value))
    (hmag : ∀ kk, kk ≠ pn → m.lookup kk = m'.lookup kk) (p' : ParamSpec) :
    ∀ kk, kk ≠ pn →
      (adStep sub params m p').lookup kk = (adStep sub params' m' p').lookup kk := by
  intro kk hkk
  by_cases hps : p'.python_name = sub
  · unfold adStep
    rw [if_pos hps, if_pos hps]
    exact hmag kk hkk
  · by_cases hp' : p'.python_name = pn
    · have hkp : kk ≠ p'.python_name := fun e => hkk (e.trans hp')
      have hL : (adStep sub params m p').lookup kk = m.lookup kk := by
        unfold adStep
        rw [if_neg hps]
        cases params.lookup p'.python_name with
        | some v => exact lookup_dinsert_ne _ _ _ _ hkp
        | none =>
          rcases p'.default with _ | a | a | a | a <;> cases p'.is_output_file <;>
            first
              | rfl
              | exact lookup_dinsert_ne _ _ _ _ hkp
      have hR : (adStep sub params' m' p').lookup kk = m'.lookup kk := by
        unfold adStep
        rw [if_neg hps]
        cases params'.lookup p'.python_name with
        | some v => exact lookup_dinsert_ne _ _ _ _ hkp
        | none =>
          rcases p'.default with _ | a | a | a | a <;> cases p'.is_output_file <;>
            first
              | rfl
              | exact lookup_dinsert_ne _ _ _ _ hkp
      rw [hL, hR]
      exact hmag kk hkk
    · unfold adStep
      rw [if_neg hps, if_neg hps, hag p'.python_name hp']
      cases params'.lookup p'.python_name with
      | some w => exact dinsert_lookup_congr _ _ _ _ _ (hmag kk hkk)
      | none =>
        rcases p'.default with _ | a | a | a | a <;> cases p'.is_output_file <;>
          first
            | exact hmag kk hkk
            | exact dinsert_lookup_congr _ _ _ _ _ (hmag kk hkk)

theorem foldl_adStep_agree (sub : String) (params params' : List (String × Value))
    {pn : String}
    (hag : ∀ kk, kk ≠ pn → params.lookup kk = params'.lookup kk) :
    ∀ (ps : List ParamSpec) (m m' : List (String × Value)),
    (∀ kk, kk ≠ pn → m.lookup kk = m'.lookup kk) →
    ∀ kk, kk ≠ pn →
      (ps.foldl (adStep sub params) m).lookup kk =
      (ps.foldl (adStep sub params') m').lookup kk := by
  intro ps
  induction ps with
  | nil => intro m m' hmag kk hkk; exact hmag kk hkk
  | cons p' t ih =>
    intro m m' hmag kk hkk
    simp only [List.foldl_cons]
    exact ih _ _ (adStep_agree sub params params' hag m m' hmag p') kk hkk

theorem applyDefaults_agree (tool : ToolSpec) (params params' : List (String × Value))
    {pn : String}
    (hag : ∀ kk, kk ≠ pn → params.lookup kk = params'.lookup kk) :
    ∀ kk, kk ≠ pn →
      (applyDefaults tool params).lookup kk = (applyDefaults tool params').lookup kk :=
  foldl_adStep_agree tool.subparser_param params params' hag tool.params [] []
    (fun _ _ => rfl)

/-- `resolveOutputs` leaves keys alone that are not the name of an
output-file parameter in the scanned list. -/
theorem resolveOutputs_lookup_ne_out (jobDir : String) :
    ∀ (ps : List ParamSpec) (m : List (String × Value))
      (outs : List (String × String)) (m' : List (String × Value))
      (outs' : List (String × String)) (pn : String),
    resolveOutputs jobDir ps m outs = .ok (m', outs') →
    (∀ p' ∈ ps, p'.is_output_file = true → p'.python_name ≠ pn) →
    m'.lookup pn = m.lookup pn
  | [], m, outs => by
    intro m' outs' pn h _
    cases h
    rfl
  | p :: rest, m, outs => by
    intro m' outs' pn h hne
    have hrest := fun x hx => hne x (List.mem_cons_of_mem _ hx)
    simp only [resolveOutputs] at h
    split at h
    · next ho hv =>
      have hp : pn ≠ p.python_name :=
        fun e => hne p (List.mem_cons_self _ _) ho e.symm
      split at h
      · split at h
        · rw [resolveOutputs_lookup_ne_out jobDir rest _ _ _ _ _ h hrest]
          split
          · rfl
          · exact lookup_dinsert_ne _ _ _ _ hp
        · cases h
      · exact resolveOutputs_lookup_ne_out jobDir rest _ _ _ _ _ h hrest
    · exact resolveOutputs_lookup_ne_out jobDir rest _ _ _ _ _ h hrest

/-- Congruence of `resolveOutputs` for two merged maps that agree except at
one key that is not an output-file parameter name: both runs fail the same
way or succeed with the same `resolved_outputs` and still-agreeing maps. -/
theorem resolveOutputs_agree (jobDir : String) {pn : String} :
    ∀ (ps : List ParamSpec) (m m' : List (String × Value))
      (outs : List (String × String)),
    (∀ p' ∈ ps, p'.is_output_file = true → p'.python_name ≠ pn) →
    (∀ kk, kk ≠ pn → m.lookup kk = m'.lookup kk) →
    ((∃ e, resolveOutputs jobDir ps m outs = .error e ∧
           resolveOutputs jobDir ps m' outs = .error e) ∨
     (∃ m1 m1' outs1, resolveOutputs jobDir ps m outs = .ok (m1, outs1) ∧
        resolveOutputs jobDir ps m' outs = .ok (m1', outs1) ∧
        (∀ kk, kk ≠ pn → m1.lookup kk = m1'.lookup kk)))
  | [], m, m', outs => by
    intro _ hmag
    right
    exact ⟨m, m', outs, rfl, rfl, hmag⟩
  | p :: rest, m, m', outs => by
    intro hnm hmag
    have hrest := fun x hx => hnm x (List.mem_cons_of_mem _ hx)
    by_cases ho : p.is_output_file = true
    · have hp : p.python_name ≠ pn := hnm p (List.mem_cons_self _ _) ho
      have hlk : m.lookup p.python_name = m'.lookup p.python_name :=
        hmag p.python_name hp
      simp only [resolveOutputs, ho, hlk]
      cases hl' : m'.lookup p.python_name with
      | none => exact resolveOutputs_agree jobDir rest m m' outs hrest hmag
      | some v =>
        cases htr : v.truthy
        · simp only [htr, Bool.false_eq_true, if_false]
          exact resolveOutputs_agree jobDir rest m m' outs hrest hmag
        · simp only [htr, if_true]
          cases v with
          | str sv =>
            apply resolveOutputs_agree jobDir rest
            · exact hrest
            · intro kk hkk
              split
              · exact hmag kk hkk
              · exact dinsert_lookup_congr _ _ _ _ _ (hmag kk hkk)
          | vnone => exact Or.inl ⟨.typeErr, rfl, rfl⟩
          | int n => exact Or.inl ⟨.typeErr, rfl, rfl⟩
          | bool b => exact Or.inl ⟨.typeErr, rfl, rfl⟩
          | list xs => exact Or.inl ⟨.typeErr, rfl, rfl⟩
    · have ho' : p.is_output_file = false := by
        cases hof : p.is_output_file
        · rfl
        · exact absurd hof ho
      simp only [resolveOutputs, ho']
      exact resolveOutputs_agree jobDir rest m m' outs hrest hmag

theorem applyNbCpus_agree (tool : ToolSpec) (m m' : List (String × Value))
    {pn : String} (hmag : ∀ kk, kk ≠ pn → m.lookup kk = m'.lookup kk)
    (hsame : (m.lookup "nb_cpus").isNone = (m'.lookup "nb_cpus").isNone) :
    ∀ kk, kk ≠ pn →
      (applyNbCpus tool m).lookup kk = (applyNbCpus tool m').lookup kk := by
  intro kk hkk
  unfold applyNbCpus
  rw [hsame]
  split
  · exact dinsert_lookup_congr _ _ _ _ _ (hmag kk hkk)
  · exact hmag kk hkk

theorem applyNbCpus_lookup_isSome (tool : ToolSpec) (m : List (String × Value))
    {pn : String} {v : Value} (h : m.lookup pn = some v) :
    (applyNbCpus tool m).lookup pn = some v := by
  unfold applyNbCpus
  split
  · next hc =>
    have : pn ≠ "nb_cpus" := by
      intro e
      rw [e] at h
      rw [h] at hc
      cases hc.2
    rw [lookup_dinsert_ne _ _ _ _ this]
    exact h
  · exact h

theorem emitFlag_congr (sp : String) (m m' : List (String × Value)) (p : ParamSpec)
    (h : m.lookup p.python_name = m'.lookup p.python_name) :
    emitFlag sp m p = emitFlag sp m' p := by
  unfold emitFlag
  rw [h]

/-- A `list`-typed parameter emits the same tokens for a native list and for
a whitespace-delimited string that splits into the same items. -/
theorem emitFlag_list_eq (sp : String) (m m' : List (String × Value))
    (p : ParamSpec) (htype : p.type = "list") {xs : List Value} {sv : String}
    (h1 : m.lookup p.python_name = some (.list xs))
    (h2 : m'.lookup p.python_name = some (.str sv))
    (hsplit : pySplit sv = xs.map Value.pyStr) :
    emitFlag sp m p = emitFlag sp m' p := by
  unfold emitFlag
  rw [h1, h2, htype]
  simp only [Value.pyStr]
  rw [hsplit]
  simp

theorem flatMap_emit_congr (sp : String) (m m' : List (String × Value)) :
    ∀ (ps : List ParamSpec),
    (∀ p' ∈ ps, emitFlag sp m p' = emitFlag sp m' p') →
    ps.flatMap (emitFlag sp m) = ps.flatMap (emitFlag sp m') := by
  intro ps
  induction ps with
  | nil => intro _; rfl
  | cons p t ih =>
    intro h
    simp only [List.flatMap_cons]
    rw [h p (List.mem_cons_self _ _), ih (fun x hx => h x (List.mem_cons_of_mem _ hx))]

/-- C9: for a `list`-typed, non-output, non-positional parameter of a tool
with distinctly-named parameters, supplying a native list and supplying a
whitespace-delimited string that splits into the same items produce exactly
the same built command (same tokens after the flag, same resolved outputs);
and a parameter resolved to an empty list appends nothing, not even its flag
token. -/
theorem claimC9 (tool : ToolSpec) (params params' : List (String × Value))
    (jobDir : String) (p : ParamSpec) (ps1 ps2 : List ParamSpec)
    {xs : List Value} {sv : String}
    (hdec : tool.params = ps1 ++ p :: ps2)
    (huniq : ∀ p' ∈ ps1 ++ ps2, p'.python_name ≠ p.python_name)
    (hsub : p.python_name ≠ tool.subparser_param)
    (htype : p.type = "list") (hout : p.is_output_file = false)
    (hv1 : params.lookup p.python_name = some (.list xs))
    (hv2 : params'.lookup p.python_name = some (.str sv))
    (hag : ∀ kk, kk ≠ p.python_name → params.lookup kk = params'.lookup kk)
    (hsplit : pySplit sv = xs.map Value.pyStr) :
    build_command tool params jobDir = build_command tool params' jobDir ∧
    (∀ merged, merged.lookup p.python_name = some (.list []) →
      emitFlag tool.subparser_param merged p = []) := by
  have hnm : ∀ p' ∈ tool.params, p'.is_output_file = true →
      p'.python_name ≠ p.python_name := by
    intro p' hp' hof
    rw [hdec] at hp'
    rcases List.mem_append.mp hp' with h | h
    · exact huniq p' (List.mem_append.mpr (Or.inl h))
    · rcases List.mem_cons.mp h with h | h
      · subst h
        rw [hof] at hout
        cases hout
      · exact huniq p' (List.mem_append.mpr (Or.inr h))
  have hmag := applyDefaults_agree tool params params' hag
  have hm1 := applyDefaults_lookup_present tool params p ps1 ps2 hdec huniq hsub hv1
  have hm2 := applyDefaults_lookup_present tool params' p ps1 ps2 hdec huniq hsub hv2
  have hsubv : pyGet params tool.subparser_param = pyGet params' tool.subparser_param := by
    unfold pyGet
    rw [hag tool.subparser_param (fun e => hsub e.symm)]
  constructor
  · unfold build_command
    dsimp only
    rw [hsubv]
    split
    · rfl
    · rcases resolveOutputs_agree jobDir tool.params (applyDefaults tool params)
        (applyDefaults tool params') [] hnm hmag with
        ⟨e, he1, he2⟩ | ⟨m1, m1', outs1, ho1, ho2, hag1⟩
      · rw [he1, he2]
      · rw [ho1, ho2]
        dsimp only
        have hl1 : m1.lookup p.python_name = some (.list xs) := by
          rw [resolveOutputs_lookup_ne_out jobDir tool.params _ _ _ _ _ ho1 hnm]
          exact hm1
        have hl2 : m1'.lookup p.python_name = some (.str sv) := by
          rw [resolveOutputs_lookup_ne_out jobDir tool.params _ _ _ _ _ ho2 hnm]
          exact hm2
        have hsame : (m1.lookup "nb_cpus").isNone = (m1'.lookup "nb_cpus").isNone := by
          by_cases hpn : p.python_name = "nb_cpus"
          · rw [← hpn, hl1, hl2]
            rfl
          · rw [hag1 "nb_cpus" (fun e => hpn e.symm)]
        have hm2ag := applyNbCpus_agree tool m1 m1' hag1 hsame
        have hflags : tool.params.flatMap
            (emitFlag tool.subparser_param (applyNbCpus tool m1)) =
            tool.params.flatMap
            (emitFlag tool.subparser_param (applyNbCpus tool m1')) := by
          apply flatMap_emit_congr
          intro p' hp'
          by_cases hname : p'.python_name = p.python_name
          · have hpp : p' = p := by
              rw [hdec] at hp'
              rcases List.mem_append.mp hp' with h | h
              · exact absurd hname (huniq p' (List.mem_append.mpr (Or.inl h)))
              · rcases List.mem_cons.mp h with h | h
                · exact h
                · exact absurd hname (huniq p' (List.mem_append.mpr (Or.inr h)))
            subst hpp
            exact emitFlag_list_eq _ _ _ p' htype
              (applyNbCpus_lookup_isSome tool m1 hl1)
              (applyNbCpus_lookup_isSome tool m1' hl2) hsplit
          · exact emitFlag_congr _ _ _ p' (hm2ag p'.python_name hname)
        rw [hflags]
  · intro merged hm
    unfold emitFlag
    rw [if_neg hsub, hm]
    split
    · rfl
    · simp [htype]

/-- List-typed parameter for the C9 witness. -/
def pLst : ParamSpec :=
  { python_name := "lst", cli_flag := "--lst", type := "list" }

/-- Tool for the C9 witness. -/
def specC9 : ToolSpec := { name := "t", script_name := "t.py", params := [pLst] }

theorem claimC9_witness :
    build_command specC9 [("lst", Value.list [.str "a", .str "b"])] "/jd" =
      build_command specC9 [("lst", Value.str "a b")] "/jd" ∧
    emitFlag specC9.subparser_param [("lst", Value.list [])] pLst = [] := by
  have hag : ∀ kk, kk ≠ "lst" →
      ([("lst", Value.list [.str "a", .str "b"])] : List (String × Value)).lookup kk =
      ([("lst", Value.str "a b")] : List (String × Value)).lookup kk := by
    intro kk hkk
    have hb : (kk == "lst") = false := by simp [hkk]
    simp [List.lookup, hb]
  have h := claimC9 specC9 [("lst", Value.list [.str "a", .str "b"])]
    [("lst", Value.str "a b")] "/jd" pLst [] []
    rfl (by intro p' hp'; simp at hp') (by decide) rfl rfl rfl rfl hag (by decide)
  exact ⟨h.1, h.2 [("lst", Value.list [])] rfl⟩

-- ---------------------------------------------------------------------------
-- C5: completion monitoring
-- ---------------------------------------------------------------------------

/-- C5: when a uniquely-registered live job's process has exited with code
`rc`, the next poll tick persists status `completed` exactly when `rc = 0`
and `failed` otherwise, stores `rc` as the exit code, keeps in the stored
output map exactly the entries whose path exists at that moment (entries are
only ever pruned, never re-added), and performs an output-map write if and
only if the pruned map differs (as a dict) from the stored one. -/
theorem claimC5 (poll : String → Option Int) (isfile : String → Bool)
    (now : String) (s : Sys) (a1 a2 : List (String × RegInfo))
    (e : String × RegInfo) (rc : Int) {j : JobRec}
    (hact : s.active = a1 ++ e :: a2)
    (h1 : ∀ x ∈ a1, ¬ x.1 = e.1) (h2 : ∀ x ∈ a2, ¬ x.1 = e.1)
    (hpoll : poll e.1 = some rc)
    (hj : get_job s.db e.1 = some j) :
    get_job (pollOnce poll isfile now s).1.db e.1 =
      some { j with
        status := if rc = 0 then "completed" else "failed",
        exit_code := some rc, end_time := some now,
        output_files := j.output_files.filter (fun kv => isfile kv.2) } ∧
    ((pollOnce poll isfile now s).2.any (StoreWrite.isOutputsFor e.1) =
      ! pyDictEq (j.output_files.filter (fun kv => isfile kv.2)) j.output_files) := by
  have h := pollOnce_spec poll isfile now s a1 a2 e rc hact h1 h2 hpoll hj
  exact ⟨h.1, h.2.2⟩

/-- Concrete job, registry entry and system state for the monitor/cancel
witnesses and counterexamples. -/
def jobW : JobRec :=
  { job_id := "J", project_id := some "p", tool_name := "t2",
    step_name := some "st", params := [], command := [], status := "running",
    pid := some 7, start_time := "t0", end_time := none, exit_code := none,
    stdout_file := "", stderr_file := "", log_file := "",
    output_files := [("k", "/f"), ("g", "/g")], working_dir := "",
    created_at := "t0" }

def regW : RegInfo := { pid := 7, project_id := some "p", step_name := some "st" }

def stepW : StepRec :=
  { project_id := "p", step_name := "st", step_order := 1, job_id := none,
    status := "pending", is_optional := false }

def sysW : Sys := { db := { jobs := [jobW], steps := [stepW] }, active := [("J", regW)] }

def pollW : String → Option Int := fun jid => if jid = "J" then some 0 else none

def isfileW : String → Bool := fun pth => pth == "/f"

theorem claimC5_witness :
    get_job (pollOnce pollW isfileW "t2" sysW).1.db "J" =
      some { jobW with
        status := "completed", exit_code := some 0,
        end_time := some "t2", output_files := [("k", "/f")] } ∧
    ((pollOnce pollW isfileW "t2" sysW).2.any (StoreWrite.isOutputsFor "J") = true) := by
  have h := claimC5 pollW isfileW "t2" sysW [] [] ("J", regW) 0
    rfl (fun x hx => absurd hx (List.not_mem_nil x))
    (fun x hx => absurd hx (List.not_mem_nil x)) rfl rfl
  exact ⟨h.1, h.2⟩

-- ---------------------------------------------------------------------------
-- C1: cancellation and the live-poller registry
-- ---------------------------------------------------------------------------

/-- The state of `sysW` right after a delivered cancellation. -/
def sysWc : Sys :=
  { sysW with db := update_job_status sysW.db "J" "cancelled" (some (-15)) "t1" }

/-- A later poll observing the SIGTERM exit code -15 for job `J`. -/
def pollWk : String → Option Int := fun jid => if jid = "J" then some (-15) else none

/-- C1 counterexample: cancelling a running registered job leaves its entry in
the live registry (it is not deregistered), so the next monitor tick
re-reports it, overwriting the persisted `cancelled` status with `failed`. -/
theorem claimC1_counterexample :
    cancel_job .delivered "t1" sysW "J" = .ok (true, sysWc) ∧
    sysWc.active = [("J", regW)] ∧
    (get_job sysWc.db "J").map (fun j => j.status) = some "cancelled" ∧
    ((get_job (pollOnce pollWk isfileW "t3" sysWc).1.db "J").map
      (fun j => (j.status, j.exit_code)) = some ("failed", some (-15))) :=
  ⟨rfl, rfl, rfl, rfl⟩

/-- C1 (amended): a delivered cancellation immediately persists status
`cancelled` with exit code -15, but leaves the live registry unchanged; if the
job is still (uniquely) registered and a later tick observes its exit code,
the monitor re-reports it, overwriting status and exit code with the poll
outcome. -/
theorem claimC1_amended (now now2 : String) (s : Sys) (jobId : String)
    {j : JobRec} {p : Int} (hj : get_job s.db jobId = some j)
    (hp : j.pid = some p) (hpz : ¬ p = 0)
    (poll : String → Option Int) (isfile : String → Bool)
    (a1 a2 : List (String × RegInfo)) (e : String × RegInfo) (rc : Int)
    (hact : s.active = a1 ++ e :: a2) (hid : e.1 = jobId)
    (h1 : ∀ x ∈ a1, ¬ x.1 = jobId) (h2 : ∀ x ∈ a2, ¬ x.1 = jobId)
    (hpoll : poll jobId = some rc) :
    ∃ s', cancel_job .delivered now s jobId = .ok (true, s') ∧
      s'.active = s.active ∧
      get_job s'.db jobId = some { j with
        status := "cancelled", exit_code := some (-15), end_time := some now } ∧
      get_job (pollOnce poll isfile now2 s').1.db jobId = some { j with
        status := if rc = 0 then "completed" else "failed",
        exit_code := some rc, end_time := some now2,
        output_files := j.output_files.filter (fun kv => isfile kv.2) } := by
  subst hid
  refine ⟨{ s with db := update_job_status s.db e.1 "cancelled" (some (-15)) now },
    cancel_job_delivered now hj hp hpz, rfl, get_job_update_status_self hj _ _ _, ?_⟩
  have hj' : get_job (update_job_status s.db e.1 "cancelled" (some (-15)) now) e.1 =
      some { j with
        status := "cancelled", exit_code := some (-15), end_time := some now } :=
    get_job_update_status_self hj _ _ _
  exact (pollOnce_spec poll isfile now2
    { s with db := update_job_status s.db e.1 "cancelled" (some (-15)) now }
    a1 a2 e rc hact h1 h2 hpoll hj').1

theorem claimC1_amended_witness :
    ∃ s', cancel_job .delivered "t1" sysW "J" = .ok (true, s') ∧
      s'.active = sysW.active ∧
      get_job s'.db "J" = some { jobW with
        status := "cancelled", exit_code := some (-15), end_time := some "t1" } ∧
      get_job (pollOnce pollWk isfileW "t3" s').1.db "J" = some { jobW with
        status := "failed", exit_code := some (-15), end_time := some "t3",
        output_files := [("k", "/f")] } :=
  claimC1_amended "t1" "t3" sysW "J" rfl rfl (by decide) pollWk isfileW
    [] [] ("J", regW) (-15) rfl rfl
    (fun x hx => absurd hx (List.not_mem_nil x))
    (fun x hx => absurd hx (List.not_mem_nil x)) rfl

-- ---------------------------------------------------------------------------
-- C2: status transitions
-- ---------------------------------------------------------------------------

/-- A minimal catalogued tool (no parameters) whose submission always builds. -/
def tinyTool : ToolSpec := { name := "t2", script_name := "t.py" }

def tinyTools : List (String × ToolSpec) := [("t2", tinyTool)]

/-- Appending a fresh row makes it visible to `get_job`. -/
theorem get_job_append_fresh {db : DB} {jobId : String} (r : JobRec)
    (hid : r.job_id = jobId)
    (hany : db.jobs.any (fun x => x.job_id == jobId) = false) :
    get_job { db with jobs := db.jobs ++ [r] } jobId = some r := by
  unfold get_job
  show (db.jobs ++ [r]).find? _ = _
  rw [List.find?_append]
  have hnone : db.jobs.find? (fun x => x.job_id == jobId) = none := by
    rw [List.find?_eq_none]
    intro x hx
    have := List.any_eq_false.mp hany x hx
    simpa using this
  rw [hnone]
  simp [List.find?, hid]

/-- A successful `submit_job` stores the new record with status `running` and
the spawned pid. -/
theorem submit_job_ok_running (tools : List (String × ToolSpec)) (jobId : String)
    (pid : Int) (now : String) (s : Sys) (toolName : String)
    (params : List (String × Value)) (projectId stepName : Option String)
    {jid' : String} {s' : Sys}
    (h : submit_job tools jobId pid now s toolName params projectId stepName =
      (.ok jid', s')) :
    ∃ j', get_job s'.db jid' = some j' ∧ j'.status = "running" ∧
      j'.pid = some pid := by
  unfold submit_job at h
  split at h
  · exact Except.noConfusion (congrArg Prod.fst h)
  · split at h
    · exact Except.noConfusion (congrArg Prod.fst h)
    · split at h
      · exact Except.noConfusion (congrArg Prod.fst h)
      · dsimp only at h
        split at h
        · exact Except.noConfusion (congrArg Prod.fst h)
        · unfold insert_job at h
          split at h
          · exact Except.noConfusion (congrArg Prod.fst h)
          · next db1 hins =>
            split at hins
            · exact Except.noConfusion hins
            · next hany =>
              have hdb1 := Except.ok.inj hins
              subst hdb1
              injection h with h1 h2
              have hid : jobId = jid' := Except.ok.inj h1
              subst hid
              subst h2
              have hany' : s.db.jobs.any (fun x => x.job_id == jobId) = false := by
                cases hb : s.db.jobs.any (fun x => x.job_id == jobId) with
                | false => rfl
                | true => exact absurd hb hany
              dsimp only
              split
              · exact ⟨_, get_job_update_outputs_self
                  (get_job_append_fresh _ rfl hany') _, rfl, rfl⟩
              · exact ⟨_, get_job_append_fresh _ rfl hany', rfl, rfl⟩

/-- C2 counterexample: a job whose status is `cancelled` transitions to
`failed` on the next monitor tick (the claim says `cancelled` is terminal and
only `running` jobs move). -/
theorem claimC2_counterexample :
    (get_job sysWc.db "J").map (fun j => j.status) = some "cancelled" ∧
    ((get_job (pollOnce pollWk isfileW "t3" sysWc).1.db "J").map
      (fun j => j.status) = some "failed") :=
  ⟨rfl, rfl⟩

/-- C2 (amended): submission preserves all existing records and creates the
new one with status `running`; a cancellation either leaves a record unchanged
or sets the target record (whatever its current status) to `cancelled` with
exit code -15; a monitor tick either leaves a record unchanged or moves a
registered record (whatever its current status, including `cancelled`) to the
terminal status `completed` or `failed`. -/
theorem claimC2_amended (s : Sys) :
    (∀ (tools : List (String × ToolSpec)) (jobId : String) (pid : Int)
        (now : String) (toolName : String) (params : List (String × Value))
        (projectId stepName : Option String) (q : String) (j : JobRec),
      get_job s.db q = some j →
      get_job ((submit_job tools jobId pid now s toolName params projectId
        stepName).2).db q = some j) ∧
    (∀ (tools : List (String × ToolSpec)) (jobId : String) (pid : Int)
        (now : String) (toolName : String) (params : List (String × Value))
        (projectId stepName : Option String) (jid' : String) (s' : Sys),
      submit_job tools jobId pid now s toolName params projectId stepName =
        (.ok jid', s') →
      ∃ j', get_job s'.db jid' = some j' ∧ j'.status = "running" ∧
        j'.pid = some pid) ∧
    (∀ (kill : KillOutcome) (now jobId : String) (b : Bool) (s' : Sys),
      cancel_job kill now s jobId = .ok (b, s') →
      ∀ (q : String) (j : JobRec), get_job s.db q = some j →
        get_job s'.db q = some j ∨
        (q = jobId ∧ get_job s'.db q = some { j with
          status := "cancelled", exit_code := some (-15), end_time := some now })) ∧
    (∀ (poll : String → Option Int) (isfile : String → Bool) (now : String)
        (q : String) (j' : JobRec),
      get_job (pollOnce poll isfile now s).1.db q = some j' →
      get_job s.db q = some j' ∨
      ((j'.status = "completed" ∨ j'.status = "failed") ∧
        ∃ e ∈ s.active, e.1 = q)) := by
  refine ⟨?_, ?_, ?_, ?_⟩
  · intro tools jobId pid now toolName params projectId stepName q j hq
    exact submit_job_preserves tools jobId pid now s toolName params
      projectId stepName hq
  · intro tools jobId pid now toolName params projectId stepName jid' s' h
    exact submit_job_ok_running tools jobId pid now s toolName params
      projectId stepName h
  · intro kill now jobId b s' hc q j hq
    unfold cancel_job at hc
    cases hget : get_job s.db jobId with
    | none => rw [hget] at hc; exact Except.noConfusion hc
    | some job =>
      rw [hget] at hc
      dsimp only at hc
      cases hpid : job.pid with
      | none =>
        rw [hpid] at hc
        injection hc with h12
        injection h12 with hb hs
        subst hs
        exact Or.inl hq
      | some p =>
        rw [hpid] at hc
        replace hc : (if p = 0 then Except.ok (false, s)
            else
              (match kill with
              | KillOutcome.delivered =>
                  Except.ok (true, Sys.mk
                    (update_job_status s.db jobId "cancelled" (some (-15)) now)
                    s.active)
              | KillOutcome.noSuchProcess => Except.ok (false, s)
              | KillOutcome.permissionDenied =>
                  Except.error (CancelErr.signalPermissionDenied p))) =
            Except.ok (b, s') := hc
        by_cases hp0 : p = 0
        · rw [if_pos hp0] at hc
          injection hc with h12
          injection h12 with hb hs
          subst hs
          exact Or.inl hq
        · rw [if_neg hp0] at hc
          cases kill with
          | delivered =>
            injection hc with h12
            injection h12 with hb hs
            subst hs
            by_cases hq' : q = jobId
            · subst hq'
              exact Or.inr ⟨rfl, get_job_update_status_self hq _ _ _⟩
            · refine Or.inl ?_
              show get_job (update_job_status s.db jobId "cancelled"
                (some (-15)) now) q = some j
              rw [get_job_update_status_ne _ _ _ _ _ hq']
              exact hq
          | noSuchProcess =>
            injection hc with h12
            injection h12 with hb hs
            subst hs
            exact Or.inl hq
          | permissionDenied => exact Except.noConfusion hc
  · intro poll isfile now q j' hj'
    replace hj' : get_job
        ((s.active.filterMap (fun e => (poll e.1).map (fun rc => (e, rc)))).foldl
          (processCompleted isfile now) (s.db, [])).1 q = some j' := hj'
    have h := foldProcess_getJob_cases isfile now
      (s.active.filterMap (fun e => (poll e.1).map (fun rc => (e, rc))))
      (s.db, []) hj'
    rcases h with ⟨h1, _⟩ | ⟨hst, c, hc, hcq⟩
    · exact Or.inl h1
    · refine Or.inr ⟨hst, c.1, ?_, hcq⟩
      rcases List.mem_filterMap.mp hc with ⟨e, he, hfe⟩
      cases hpe : poll e.1 with
      | none => rw [hpe] at hfe; cases hfe
      | some rc =>
        rw [hpe] at hfe
        cases hfe
        exact he

/-- The record of `jobW` after a tick that observes exit code -15. -/
def jobWf : JobRec := { jobW with
  status := "failed", exit_code := some (-15), end_time := some "t3",
  output_files := [("k", "/f")] }

theorem claimC2_amended_witness :
    get_job ((submit_job [] "K" 9 "t5" sysW "no" [] none none).2).db "J" =
      some jobW ∧
    (∃ j', get_job ((submit_job tinyTools "K" 9 "t5" sysW "t2" [] (some "p")
        (some "st")).2).db "K" = some j' ∧ j'.status = "running" ∧
      j'.pid = some 9) ∧
    (get_job sysWc.db "J" = some jobW ∨
      ("J" = "J" ∧ get_job sysWc.db "J" = some { jobW with
        status := "cancelled", exit_code := some (-15), end_time := some "t1" })) ∧
    (get_job sysW.db "J" = some jobWf ∨
      ((jobWf.status = "completed" ∨ jobWf.status = "failed") ∧
        ∃ e ∈ sysW.active, e.1 = "J")) := by
  have h := claimC2_amended sysW
  have hx : get_job (pollOnce pollWk isfileW "t3" sysW).1.db "J" = some jobWf := by
    rfl
  exact ⟨h.1 [] "K" 9 "t5" "no" [] none none "J" jobW rfl,
    h.2.1 tinyTools "K" 9 "t5" "t2" [] (some "p") (some "st") "K" _ rfl,
    h.2.2.1 .delivered "t1" "J" true sysWc rfl "J" jobW rfl,
    h.2.2.2 pollWk isfileW "t3" "J" jobWf hx⟩

-- ---------------------------------------------------------------------------
-- C3: pipeline step records
-- ---------------------------------------------------------------------------

/-- The state after a successful `cancel_job` is either unchanged or the
cancelled-status update; no other shape is reachable. -/
theorem cancel_job_cases {kill : KillOutcome} {now : String} {s : Sys}
    {jobId : String} {b : Bool} {s' : Sys}
    (hc : cancel_job kill now s jobId = .ok (b, s')) :
    s' = s ∨
    s' = Sys.mk (update_job_status s.db jobId "cancelled" (some (-15)) now)
      s.active := by
  unfold cancel_job at hc
  cases hget : get_job s.db jobId with
  | none => rw [hget] at hc; exact Except.noConfusion hc
  | some job =>
    rw [hget] at hc
    dsimp only at hc
    cases hpid : job.pid with
    | none =>
      rw [hpid] at hc
      injection hc with h12
      injection h12 with hb hs
      exact Or.inl hs.symm
    | some p =>
      rw [hpid] at hc
      replace hc : (if p = 0 then Except.ok (false, s)
          else
            (match kill with
            | KillOutcome.delivered =>
                Except.ok (true, Sys.mk
                  (update_job_status s.db jobId "cancelled" (some (-15)) now)
                  s.active)
            | KillOutcome.noSuchProcess => Except.ok (false, s)
            | KillOutcome.permissionDenied =>
                Except.error (CancelErr.signalPermissionDenied p))) =
          Except.ok (b, s') := hc
      by_cases hp0 : p = 0
      · rw [if_pos hp0] at hc
        injection hc with h12
        injection h12 with hb hs
        exact Or.inl hs.symm
      · rw [if_neg hp0] at hc
        cases kill with
        | delivered =>
          injection hc with h12
          injection h12 with hb hs
          exact Or.inr hs.symm
        | noSuchProcess =>
          injection hc with h12
          injection h12 with hb hs
          exact Or.inl hs.symm
        | permissionDenied => exact Except.noConfusion hc

/-- C3 counterexample: a successful submission with a project and step name
leaves the pipeline-step row untouched — the job runs while its step row still
reads `pending` with no linked job (the claim says the row is updated to
`running` and linked at submission). -/
theorem claimC3_counterexample :
    (submit_job tinyTools "K" 9 "t5" sysW "t2" [] (some "p") (some "st")).1 =
      .ok "K" ∧
    ((get_job (submit_job tinyTools "K" 9 "t5" sysW "t2" [] (some "p")
      (some "st")).2.db "K").map (fun j => j.status) = some "running") ∧
    get_step (submit_job tinyTools "K" 9 "t5" sysW "t2" [] (some "p")
      (some "st")).2.db "p" "st" = some stepW ∧
    stepW.status = "pending" ∧ stepW.job_id = none :=
  ⟨rfl, rfl, rfl, rfl, rfl⟩

/-- C3 (amended): neither submission nor cancellation ever touches a
pipeline-step row; a step row changes only on a monitor tick, when the
finished job's registry entry carries the row's project and step name: the row
then gets the job's terminal status and its `job_id` link. -/
theorem claimC3_amended (s : Sys) :
    (∀ (tools : List (String × ToolSpec)) (jobId : String) (pid : Int)
        (now : String) (toolName : String) (params : List (String × Value))
        (projectId stepName : Option String),
      ((submit_job tools jobId pid now s toolName params projectId
        stepName).2).db.steps = s.db.steps) ∧
    (∀ (kill : KillOutcome) (now jobId : String) (b : Bool) (s' : Sys),
      cancel_job kill now s jobId = .ok (b, s') → s'.db.steps = s.db.steps) ∧
    (∀ (poll : String → Option Int) (isfile : String → Bool) (now : String)
        (a1 a2 : List (String × RegInfo)) (e : String × RegInfo) (rc : Int)
        (proj stp : String) (r : StepRec),
      s.active = a1 ++ e :: a2 → poll e.1 = some rc →
      e.2.project_id = some proj → e.2.step_name = some stp →
      proj ≠ "" → stp ≠ "" → e.1 ≠ "" →
      (∀ x ∈ a1 ++ a2, x.2.project_id ≠ some proj ∨ x.2.step_name ≠ some stp) →
      get_step s.db proj stp = some r →
      get_step (pollOnce poll isfile now s).1.db proj stp = some { r with
        status := if rc = 0 then "completed" else "failed",
        job_id := some e.1 }) := by
  refine ⟨?_, ?_, ?_⟩
  · intro tools jobId pid now toolName params projectId stepName
    exact submit_job_steps tools jobId pid now s toolName params projectId
      stepName
  · intro kill now jobId b s' hc
    rcases cancel_job_cases hc with h | h
    · rw [h]
    · rw [h]
      rfl
  · intro poll isfile now a1 a2 e rc proj stp r hact hpoll hp hs hproj hstp
      hjid hothers hr
    exact pollOnce_step_spec poll isfile now s a1 a2 e rc hact hpoll hp hs
      hproj hstp hjid hothers hr

theorem claimC3_amended_witness :
    ((submit_job tinyTools "K" 9 "t5" sysW "t2" [] (some "p")
      (some "st")).2).db.steps = sysW.db.steps ∧
    sysWc.db.steps = sysW.db.steps ∧
    get_step (pollOnce pollWk isfileW "t3" sysW).1.db "p" "st" =
      some { stepW with status := "failed", job_id := some "J" } := by
  have h := claimC3_amended sysW
  exact ⟨h.1 tinyTools "K" 9 "t5" "t2" [] (some "p") (some "st"),
    h.2.1 .delivered "t1" "J" true sysWc rfl,
    h.2.2 pollWk isfileW "t3" [] [] ("J", regW) (-15) "p" "st" stepW
      rfl rfl rfl rfl (by decide) (by decide) (by decide)
      (fun x hx => absurd hx (List.not_mem_nil x)) rfl⟩

-- ---------------------------------------------------------------------------
-- C6: resolver index ordering and rule preference
-- ---------------------------------------------------------------------------

/-- Spec-side characterization: the value left by the last write for key `k`
in a chronological write sequence, starting from `init`. -/
def lastValFrom (ws : List (String × String)) (k : String)
    (init : Option String) : Option String :=
  ws.foldl (fun a kv => if kv.1 = k then some kv.2 else a) init

/-- Spec-side characterization: the last write for `k`, if any. -/
def lastVal (ws : List (String × String)) (k : String) : Option String :=
  lastValFrom ws k none

/-- Spec-side characterization: the chronological write sequence of the
fully-qualified index — jobs in ascending start-time order, each truthy
output entry keyed `src_step.out_key`. -/
def fullWrites (jobs : List JobRec) : List (String × String) :=
  (pySorted (fun a b => pyStrLe a.start_time b.start_time) jobs).flatMap
    (fun j => j.output_files.filterMap (fun kv =>
      if kv.2 ≠ "" then some (jobSrcStep j ++ "." ++ kv.1, kv.2) else none))

/-- Spec-side characterization: the chronological write sequence of the loose
index — jobs in ascending start-time order, each truthy output entry keyed by
its output key alone. -/
def looseWrites (jobs : List JobRec) : List (String × String) :=
  (pySorted (fun a b => pyStrLe a.start_time b.start_time) jobs).flatMap
    (fun j => j.output_files.filterMap (fun kv =>
      if kv.2 ≠ "" then some (kv.1, kv.2) else none))

theorem mem_stableInsert {α : Type} (le : α → α → Bool) (a : α) :
    ∀ (l : List α) (x : α), x ∈ stableInsert le a l → x = a ∨ x ∈ l
  | [], x => by
    intro h
    simp [stableInsert] at h
    exact Or.inl h
  | b :: t, x => by
    intro h
    simp only [stableInsert] at h
    by_cases hba : le b a = true
    · rw [if_pos hba] at h
      rcases List.mem_cons.mp h with h1 | h1
      · exact Or.inr (h1 ▸ List.mem_cons_self b t)
      · rcases mem_stableInsert le a t x h1 with h2 | h2
        · exact Or.inl h2
        · exact Or.inr (List.mem_cons_of_mem b h2)
    · rw [if_neg hba] at h
      rcases List.mem_cons.mp h with h1 | h1
      · exact Or.inl h1
      · exact Or.inr h1

theorem pairwise_stableInsert {α : Type} (le : α → α → Bool)
    (htot : ∀ a b, le a b = true ∨ le b a = true)
    (htrans : ∀ {a b c}, le a b = true → le b c = true → le a c = true)
    (a : α) : ∀ (l : List α), l.Pairwise (fun x y => le x y = true) →
    (stableInsert le a l).Pairwise (fun x y => le x y = true)
  | [], _ => by simp [stableInsert]
  | b :: t, hp => by
    simp only [stableInsert]
    rcases List.pairwise_cons.mp hp with ⟨hb, ht⟩
    by_cases hba : le b a = true
    · rw [if_pos hba]
      refine List.pairwise_cons.mpr ⟨?_, pairwise_stableInsert le htot htrans a t ht⟩
      intro x hx
      rcases mem_stableInsert le a t x hx with h | h
      · exact h ▸ hba
      · exact hb x h
    · rw [if_neg hba]
      have hab : le a b = true := (htot a b).resolve_right hba
      refine List.pairwise_cons.mpr ⟨?_, hp⟩
      intro x hx
      rcases List.mem_cons.mp hx with h | h
      · exact h ▸ hab
      · exact htrans hab (hb x h)

theorem perm_stableInsert {α : Type} (le : α → α → Bool) (a : α) :
    ∀ (l : List α), (stableInsert le a l).Perm (a :: l)
  | [] => List.Perm.refl _
  | b :: t => by
    simp only [stableInsert]
    by_cases hba : le b a = true
    · rw [if_pos hba]
      exact ((perm_stableInsert le a t).cons b).trans (List.Perm.swap a b t)
    · rw [if_neg hba]

theorem pySorted_perm_aux {α : Type} (le : α → α → Bool) :
    ∀ (l : List α) (acc : List α), (l.foldl (fun acc a => stableInsert le a acc) acc).Perm (l ++ acc)
  | [], acc => List.Perm.refl _
  | a :: t, acc => by
    simp only [List.foldl_cons, List.cons_append]
    have h1 := pySorted_perm_aux le t (stableInsert le a acc)
    have h2 : (t ++ stableInsert le a acc).Perm (t ++ (a :: acc)) :=
      List.Perm.append_left t (perm_stableInsert le a acc)
    have h3 : (t ++ (a :: acc)).Perm (a :: (t ++ acc)) := List.perm_middle
    exact (h1.trans h2).trans h3

theorem pySorted_perm {α : Type} (le : α → α → Bool) (l : List α) :
    (pySorted le l).Perm l := by
  have h := pySorted_perm_aux le l []
  simpa using h

theorem pySorted_pairwise {α : Type} (le : α → α → Bool)
    (htot : ∀ a b, le a b = true ∨ le b a = true)
    (htrans : ∀ {a b c}, le a b = true → le b c = true → le a c = true)
    (l : List α) : (pySorted le l).Pairwise (fun x y => le x y = true) := by
  have haux : ∀ (m : List α) (acc : List α),
      acc.Pairwise (fun x y => le x y = true) →
      (m.foldl (fun acc a => stableInsert le a acc) acc).Pairwise
        (fun x y => le x y = true) := by
    intro m
    induction m with
    | nil => intro acc h; exact h
    | cons a t ih =>
      intro acc h
      exact ih _ (pairwise_stableInsert le htot htrans a acc h)
  exact haux l [] List.Pairwise.nil

/-- One job's output scan: both index components behave as last-write-wins
over that job's truthy entries. -/
theorem indexInner_lookup (j : JobRec) (k : String) :
    ∀ (outs : List (String × String))
      (acc : List (String × String) × List (String × String)),
    ((outs.foldl (fun acc2 kv =>
        if kv.2 ≠ "" then
          (dinsert acc2.1 (jobSrcStep j ++ "." ++ kv.1) kv.2,
           dinsert acc2.2 kv.1 kv.2)
        else acc2) acc).1.lookup k =
      lastValFrom (outs.filterMap (fun kv =>
        if kv.2 ≠ "" then some (jobSrcStep j ++ "." ++ kv.1, kv.2) else none)) k
        (acc.1.lookup k)) ∧
    ((outs.foldl (fun acc2 kv =>
        if kv.2 ≠ "" then
          (dinsert acc2.1 (jobSrcStep j ++ "." ++ kv.1) kv.2,
           dinsert acc2.2 kv.1 kv.2)
        else acc2) acc).2.lookup k =
      lastValFrom (outs.filterMap (fun kv =>
        if kv.2 ≠ "" then some (kv.1, kv.2) else none)) k (acc.2.lookup k))
  | [], acc => ⟨rfl, rfl⟩
  | kv :: t, acc => by
    simp only [List.foldl_cons, List.filterMap_cons]
    by_cases hv : kv.2 ≠ ""
    · rw [if_pos hv, if_pos hv, if_pos hv]
      have ih := indexInner_lookup j k t
        (dinsert acc.1 (jobSrcStep j ++ "." ++ kv.1) kv.2, dinsert acc.2 kv.1 kv.2)
      refine ⟨ih.1.trans ?_, ih.2.trans ?_⟩
      · show lastValFrom _ k ((dinsert acc.1 (jobSrcStep j ++ "." ++ kv.1) kv.2).lookup k) =
          lastValFrom ((jobSrcStep j ++ "." ++ kv.1, kv.2) :: _) k (acc.1.lookup k)
        have hstep : lastValFrom ((jobSrcStep j ++ "." ++ kv.1, kv.2) ::
            t.filterMap (fun kv => if kv.2 ≠ "" then
              some (jobSrcStep j ++ "." ++ kv.1, kv.2) else none)) k (acc.1.lookup k) =
          lastValFrom (t.filterMap (fun kv => if kv.2 ≠ "" then
              some (jobSrcStep j ++ "." ++ kv.1, kv.2) else none)) k
            (if jobSrcStep j ++ "." ++ kv.1 = k then some kv.2
             else acc.1.lookup k) := rfl
        rw [hstep, lookup_dinsert]
        by_cases hk : jobSrcStep j ++ "." ++ kv.1 = k
        · rw [if_pos hk, if_pos hk.symm]
        · rw [if_neg hk, if_neg (fun h => hk h.symm)]
      · show lastValFrom _ k ((dinsert acc.2 kv.1 kv.2).lookup k) =
          lastValFrom ((kv.1, kv.2) :: _) k (acc.2.lookup k)
        have hstep : lastValFrom ((kv.1, kv.2) ::
            t.filterMap (fun kv => if kv.2 ≠ "" then some (kv.1, kv.2) else none))
            k (acc.2.lookup k) =
          lastValFrom (t.filterMap (fun kv => if kv.2 ≠ "" then
              some (kv.1, kv.2) else none)) k
            (if kv.1 = k then some kv.2 else acc.2.lookup k) := rfl
        rw [hstep, lookup_dinsert]
        by_cases hk : kv.1 = k
        · rw [if_pos hk, if_pos hk.symm]
        · rw [if_neg hk, if_neg (fun h => hk h.symm)]
    · rw [if_neg hv, if_neg hv, if_neg hv]
      exact indexInner_lookup j k t acc

/-- The whole scan: both indexes behave as last-write-wins over the
chronological write sequence. -/
theorem indexFold_lookup (k : String) :
    ∀ (js : List JobRec)
      (acc : List (String × String) × List (String × String)),
    ((js.foldl (fun acc j =>
        j.output_files.foldl (fun acc2 kv =>
          if kv.2 ≠ "" then
            (dinsert acc2.1 (jobSrcStep j ++ "." ++ kv.1) kv.2,
             dinsert acc2.2 kv.1 kv.2)
          else acc2) acc) acc).1.lookup k =
      lastValFrom (js.flatMap (fun j => j.output_files.filterMap (fun kv =>
        if kv.2 ≠ "" then some (jobSrcStep j ++ "." ++ kv.1, kv.2) else none)))
        k (acc.1.lookup k)) ∧
    ((js.foldl (fun acc j =>
        j.output_files.foldl (fun acc2 kv =>
          if kv.2 ≠ "" then
            (dinsert acc2.1 (jobSrcStep j ++ "." ++ kv.1) kv.2,
             dinsert acc2.2 kv.1 kv.2)
          else acc2) acc) acc).2.lookup k =
      lastValFrom (js.flatMap (fun j => j.output_files.filterMap (fun kv =>
        if kv.2 ≠ "" then some (kv.1, kv.2) else none))) k (acc.2.lookup k))
  | [], acc => ⟨rfl, rfl⟩
  | j :: t, acc => by
    simp only [List.foldl_cons, List.flatMap_cons]
    have hj := indexInner_lookup j k j.output_files acc
    have ih := indexFold_lookup k t
      (j.output_files.foldl (fun acc2 kv =>
        if kv.2 ≠ "" then
          (dinsert acc2.1 (jobSrcStep j ++ "." ++ kv.1) kv.2,
           dinsert acc2.2 kv.1 kv.2)
        else acc2) acc)
    refine ⟨ih.1.trans ?_, ih.2.trans ?_⟩
    · rw [hj.1]
      exact (List.foldl_append _ _ _ _).symm
    · rw [hj.2]
      exact (List.foldl_append _ _ _ _).symm

/-- `buildIndexes` lookups are exactly the last chronological writes. -/
theorem buildIndexes_lookup (jobs : List JobRec) (k : String) :
    ((buildIndexes jobs).1).lookup k = lastVal (fullWrites jobs) k ∧
    ((buildIndexes jobs).2).lookup k = lastVal (looseWrites jobs) k :=
  indexFold_lookup k
    (pySorted (fun a b => pyStrLe a.start_time b.start_time) jobs) ([], [])

/-- Rules whose target parameter differs from `tgt` never change the result's
entry for `tgt`. -/
theorem applyRules_fold_untouched (inputParams : List String)
    (full loose : List (String × String)) (tgt : String) :
    ∀ (rs : List (String × String × String)) (res : List (String × String)),
    (∀ r' ∈ rs, r'.2.2 ≠ tgt) →
    (rs.foldl (fun res r =>
      if r.2.2 ∈ inputParams then
        match full.lookup (r.1 ++ "." ++ r.2.1) with
        | some pth => dinsert res r.2.2 pth
        | none =>
          match loose.lookup r.2.1 with
          | some pth => dinsert res r.2.2 pth
          | none => res
      else res) res).lookup tgt = res.lookup tgt
  | [], res => fun _ => rfl
  | r' :: t, res => by
    intro hun
    simp only [List.foldl_cons]
    have hne : r'.2.2 ≠ tgt := hun r' (List.mem_cons_self r' t)
    have hunt : ∀ x ∈ t, x.2.2 ≠ tgt := fun x hx => hun x (List.mem_cons_of_mem r' hx)
    have ih := applyRules_fold_untouched inputParams full loose tgt t
    by_cases hmem : r'.2.2 ∈ inputParams
    · rw [if_pos hmem]
      cases hfl : full.lookup (r'.1 ++ "." ++ r'.2.1) with
      | some pth =>
        rw [ih _ hunt]
        exact lookup_dinsert_ne _ _ _ _ (fun h => hne h.symm)
      | none =>
        cases hls : loose.lookup r'.2.1 with
        | some pth =>
          rw [ih _ hunt]
          exact lookup_dinsert_ne _ _ _ _ (fun h => hne h.symm)
        | none => exact ih _ hunt
    · rw [if_neg hmem]
      exact ih _ hunt

/-- The one rule with target `r.2.2` decides the entry: fully-qualified hit
wins, else the loose hit. -/
theorem applyRules_pref (stepName : String) (inputParams : List String)
    (full loose : List (String × String))
    {rs1 rs2 : List (String × String × String)} {r : String × String × String}
    (hdec : rulesByTarget stepName = rs1 ++ r :: rs2)
    (hmem : r.2.2 ∈ inputParams)
    (hun : ∀ r' ∈ rs2, r'.2.2 ≠ r.2.2) :
    (∀ pth, full.lookup (r.1 ++ "." ++ r.2.1) = some pth →
      (applyRules stepName inputParams full loose).lookup r.2.2 = some pth) ∧
    (∀ pth, full.lookup (r.1 ++ "." ++ r.2.1) = none →
      loose.lookup r.2.1 = some pth →
      (applyRules stepName inputParams full loose).lookup r.2.2 = some pth) := by
  unfold applyRules
  rw [hdec, List.foldl_append, List.foldl_cons]
  constructor
  · intro pth hf
    rw [applyRules_fold_untouched inputParams full loose r.2.2 rs2 _ hun]
    rw [if_pos hmem]
    rw [hf]
    exact lookup_dinsert_self _ _ _
  · intro pth hf hl
    rw [applyRules_fold_untouched inputParams full loose r.2.2 rs2 _ hun]
    rw [if_pos hmem]
    rw [hf, hl]
    exact lookup_dinsert_self _ _ _

/-- The shorthand pass never changes keys that are already resolved. -/
theorem applyShorthand_preserves (loose : List (String × String)) (pn : String) :
    ∀ (ips : List String) (res : List (String × String)),
    (res.lookup pn).isSome = true →
    (applyShorthand ips loose res).lookup pn = res.lookup pn
  | [], res => fun _ => rfl
  | p :: t, res => by
    intro hsome
    unfold applyShorthand
    simp only [List.foldl_cons]
    by_cases hps : (res.lookup p).isSome = true
    · rw [if_pos hps]
      exact applyShorthand_preserves loose pn t res hsome
    · rw [if_neg hps]
      have hpp : pn ≠ p := fun h => hps (h ▸ hsome)
      cases hfind : OUTPUT_KEY_TO_INPUT_PARAM.find? (fun kg =>
          kg.2 == p && (loose.lookup kg.1).isSome) with
      | none => exact applyShorthand_preserves loose pn t res hsome
      | some kg =>
        have hlk : (dinsert res p ((loose.lookup kg.1).getD "")).lookup pn =
            res.lookup pn := lookup_dinsert_ne _ _ _ _ hpp
        have hrec := applyShorthand_preserves loose pn t
          (dinsert res p ((loose.lookup kg.1).getD ""))
          (by rw [hlk]; exact hsome)
        exact hrec.trans hlk

/-- C6: the resolver scans the project's completed truthy-output jobs in
ascending start-time order (the scan list is a permutation of them, sorted by
`start_time`); both indexes are last-write-wins over that chronological write
sequence, so on a key collision the most recently started job's path wins; and
for a matching rule whose target parameter no later rule targets, the
fully-qualified `(sourceStep, outputKey)` lookup decides the resolved entry,
with the loose `outputKey` lookup used exactly when the fully-qualified entry
is absent. -/
theorem claimC6 (tools : List (String × ToolSpec)) (db : DB)
    (projectId stepName : String) (spec : ToolSpec)
    (hspec : tools.lookup stepName = some spec)
    (hne : (completedJobsForProject db projectId).isEmpty = false) :
    (pySorted (fun a b => pyStrLe a.start_time b.start_time)
        (completedJobsForProject db projectId)).Perm
      (completedJobsForProject db projectId) ∧
    (pySorted (fun a b => pyStrLe a.start_time b.start_time)
        (completedJobsForProject db projectId)).Pairwise
      (fun a b => pyStrLe a.start_time b.start_time = true) ∧
    (∀ k, ((buildIndexes (completedJobsForProject db projectId)).1).lookup k =
      lastVal (fullWrites (completedJobsForProject db projectId)) k) ∧
    (∀ k, ((buildIndexes (completedJobsForProject db projectId)).2).lookup k =
      lastVal (looseWrites (completedJobsForProject db projectId)) k) ∧
    (∀ (rs1 : List (String × String × String)) (r : String × String × String)
        (rs2 : List (String × String × String)),
      rulesByTarget stepName = rs1 ++ r :: rs2 →
      r.2.2 ∈ inputFileParams spec →
      (∀ r' ∈ rs2, r'.2.2 ≠ r.2.2) →
      (∀ pth,
        ((buildIndexes (completedJobsForProject db projectId)).1).lookup
          (r.1 ++ "." ++ r.2.1) = some pth →
        (resolve_inputs_for_step tools db projectId stepName).lookup r.2.2 =
          some pth) ∧
      (∀ pth,
        ((buildIndexes (completedJobsForProject db projectId)).1).lookup
          (r.1 ++ "." ++ r.2.1) = none →
        ((buildIndexes (completedJobsForProject db projectId)).2).lookup
          r.2.1 = some pth →
        (resolve_inputs_for_step tools db projectId stepName).lookup r.2.2 =
          some pth)) := by
  have hres : resolve_inputs_for_step tools db projectId stepName =
      applyShorthand (inputFileParams spec)
        (buildIndexes (completedJobsForProject db projectId)).2
        (applyRules stepName (inputFileParams spec)
          (buildIndexes (completedJobsForProject db projectId)).1
          (buildIndexes (completedJobsForProject db projectId)).2) := by
    simp only [resolve_inputs_for_step, hspec, hne, Bool.false_eq_true, if_false]
  refine ⟨pySorted_perm _ _,
    pySorted_pairwise (fun a b : JobRec => pyStrLe a.start_time b.start_time)
      (fun a b => pyStrLe_total a.start_time b.start_time)
      (fun h1 h2 => pyStrLe_trans h1 h2) _,
    fun k => (buildIndexes_lookup _ k).1,
    fun k => (buildIndexes_lookup _ k).2, ?_⟩
  intro rs1 r rs2 hdec hmem hun
  have hpref := applyRules_pref stepName (inputFileParams spec)
    (buildIndexes (completedJobsForProject db projectId)).1
    (buildIndexes (completedJobsForProject db projectId)).2 hdec hmem hun
  constructor
  · intro pth hf
    rw [hres]
    rw [applyShorthand_preserves _ _ _ _ (by rw [hpref.1 pth hf]; rfl)]
    exact hpref.1 pth hf
  · intro pth hf hl
    rw [hres]
    rw [applyShorthand_preserves _ _ _ _ (by rw [hpref.2 pth hf hl]; rfl)]
    exact hpref.2 pth hf hl

/-- Two completed jobs of one project writing the same output key at different
start times. -/
def jA : JobRec :=
  { job_id := "A", project_id := some "p", tool_name := "remove_chimera",
    step_name := some "remove_chimera", params := [], command := [],
    status := "completed", pid := none, start_time := "1", end_time := none,
    exit_code := none, stdout_file := "", stderr_file := "", log_file := "",
    output_files := [("fasta", "/a.fa")], working_dir := "",
    created_at := "1" }

def jB : JobRec := { jA with
  job_id := "B", start_time := "2", created_at := "2",
  output_files := [("fasta", "/b.fa")] }

def dbC6 : DB := { jobs := [jA, jB], steps := [] }

def specC6 : ToolSpec :=
  { name := "cluster_filters", script_name := "c.py",
    params := [{ python_name := "input_fasta", cli_flag := "--input-fasta",
                 is_input_file := true }] }

def toolsC6 : List (String × ToolSpec) := [("cluster_filters", specC6)]

theorem claimC6_witness :
    (resolve_inputs_for_step toolsC6 dbC6 "p" "cluster_filters").lookup
      "input_fasta" = some "/b.fa" := by
  have h := claimC6 toolsC6 dbC6 "p" "cluster_filters" specC6 rfl rfl
  exact (h.2.2.2.2 [] ("remove_chimera", "fasta", "input_fasta")
    [("remove_chimera", "biom", "input_biom")] rfl (by decide)
    (by decide)).1 "/b.fa" (by rfl)
